import Mathlib

set_option maxHeartbeats 1000000
set_option maxRecDepth 8000

/-!
Verification development for `point_search.py`: a quadtree over planar
points with box/radius queries, a tree builder, proximity search across
several centroids, and a quadratic-interpolation radius solver.

Modelling conventions.
* Python floats are modelled by exact rationals `ℚ`; `math.sqrt`, whose
  float behaviour is not exactly representable, is passed around as an
  explicit function parameter `msqrt : ℚ → ℚ` (theorems quantify over it),
  and the interpolation formula is additionally studied over `ℝ` with
  `Real.sqrt` where its analytic behaviour is at stake.
* Python generators become `List`s (in the generator's yield order) and
  Python `set`s become duplicate-free lists built by insertion order
  (`set_add`), so that `len`/membership are directly expressible.
* `assert` failures and other raised exceptions become `Except.error`
  with the exception's name; `add_point`'s recursion, which in Python
  terminates because the half-width is halved at each level, carries an
  explicit depth budget that is provably sufficient for trees whose
  children were produced by `add_point` itself.
-/

/-- A planar point with exact coordinates; structural equality, as for the
Python `namedtuple`. -/
structure Point where
  x : ℚ
  y : ℚ
deriving DecidableEq, Repr

/-- A quadtree node: a center, a half-width, a local bucket of points and
four optional children (lower-left, upper-left, lower-right, upper-right),
as in `QuadTree.__init__`. -/
inductive QuadTree : Type where
  | mk (center : Point) (width : ℚ) (points : List Point)
       (ll ul lr ur : Option QuadTree)

/-- The node's center (`self._center`). -/
def QuadTree.center : QuadTree → Point
  | .mk c _ _ _ _ _ _ => c

/-- The node's half-width (`self._width`). -/
def QuadTree.width : QuadTree → ℚ
  | .mk _ w _ _ _ _ _ => w

/-- The node's local point bucket (`self._points`). -/
def QuadTree.points : QuadTree → List Point
  | .mk _ _ pts _ _ _ _ => pts

/-- The resolution constant `_MAX_TREE_RESOLUTION = 2.5`. -/
def _MAX_TREE_RESOLUTION : ℚ := 5/2

mutual

/-- `QuadTree.all_points`: local points first, then the `ll`, `ul`, `lr`,
`ur` subtrees in that order. -/
def all_points : QuadTree → List Point
  | .mk _ _ pts ll ul lr ur =>
      pts ++ opt_all_points ll ++ opt_all_points ul
          ++ opt_all_points lr ++ opt_all_points ur

/-- The `if child: yield from child.all_points()` step: the points of an
optional child. -/
def opt_all_points : Option QuadTree → List Point
  | some t => all_points t
  | none => []

end

/-- `QuadTree._is_in_box`: the point lies in the node's closed square. -/
def _is_in_box (t : QuadTree) (p : Point) : Prop :=
  p.x ≥ t.center.x - t.width ∧ p.x ≤ t.center.x + t.width ∧
  p.y ≥ t.center.y - t.width ∧ p.y ≤ t.center.y + t.width

instance (t : QuadTree) (p : Point) : Decidable (_is_in_box t p) := by
  unfold _is_in_box
  exact inferInstance

/-- `QuadTree.max_radius`: `self._width * math.sqrt(2.0)`, with `math.sqrt`
supplied as `msqrt`. -/
def max_radius (msqrt : ℚ → ℚ) (t : QuadTree) : ℚ :=
  t.width * msqrt 2

/-- Number of subdivision levels from a node of half-width `w` down to the
resolution constant: the depth of the recursion that `QuadTree.add_point`
performs in the worst case when every child it descends into halves the
width, as the children it creates do. -/
def fuel_for (w : ℚ) : ℕ :=
  if w ≤ _MAX_TREE_RESOLUTION then 1 else fuel_for (w/2) + 1
termination_by (⌈w⌉).toNat
decreasing_by
  have h1 : (5/2 : ℚ) < w := by
    have h := not_le.mp (by assumption)
    simpa [_MAX_TREE_RESOLUTION] using h
  have h2 : (2 : ℤ) < ⌈w⌉ := by
    have := Int.le_ceil w
    exact_mod_cast lt_of_lt_of_le (by linarith : (2:ℚ) < w) this
  have h3 : ⌈w/2⌉ ≤ ⌈w⌉ - 1 := by
    apply Int.ceil_le.mpr
    push_cast
    have := Int.le_ceil w
    linarith
  omega

/-- Body of `QuadTree.add_point` with an explicit recursion budget `fuel`.
The Python recursion descends into a child of half the width (creating it
if absent) until the width reaches the resolution constant; `fuel` bounds
that descent and is chosen in `add_point` large enough never to run out on
trees whose children were produced by `add_point` itself.  A violated
containment `assert` is `Except.error "AssertionError"`. -/
def add_point_go (fuel : ℕ) (t : QuadTree) (p : Point) : Except String QuadTree :=
  if ¬ _is_in_box t p then .error "AssertionError" else
  match t with
  | .mk c w pts ll ul lr ur =>
    if w ≤ _MAX_TREE_RESOLUTION then .ok (.mk c w (pts ++ [p]) ll ul lr ur) else
    match fuel with
    | 0 => .error "RecursionError"
    | fuel' + 1 =>
      if p.x < c.x then
        if p.y < c.y then
          let child := match ll with
            | some s => s
            | none => .mk ⟨c.x - w/2, c.y - w/2⟩ (w/2) [] none none none none
          match add_point_go fuel' child p with
          | .ok s => .ok (.mk c w pts (some s) ul lr ur)
          | .error e => .error e
        else
          let child := match ul with
            | some s => s
            | none => .mk ⟨c.x - w/2, c.y + w/2⟩ (w/2) [] none none none none
          match add_point_go fuel' child p with
          | .ok s => .ok (.mk c w pts ll (some s) lr ur)
          | .error e => .error e
      else
        if p.y < c.y then
          let child := match lr with
            | some s => s
            | none => .mk ⟨c.x + w/2, c.y - w/2⟩ (w/2) [] none none none none
          match add_point_go fuel' child p with
          | .ok s => .ok (.mk c w pts ll ul (some s) ur)
          | .error e => .error e
        else
          let child := match ur with
            | some s => s
            | none => .mk ⟨c.x + w/2, c.y + w/2⟩ (w/2) [] none none none none
          match add_point_go fuel' child p with
          | .ok s => .ok (.mk c w pts ll ul lr (some s))
          | .error e => .error e

/-- `QuadTree.add_point`: insert a point, asserting containment at every
node reached.  The recursion budget `fuel_for width` is provably never
exhausted on trees whose children have the half-width produced by
`add_point` itself. -/
def add_point (t : QuadTree) (p : Point) : Except String QuadTree :=
  add_point_go (fuel_for t.width) t p

mutual

/-- `QuadTree.points_in_box`: local points filtered by the closed box,
then the four children, each guarded by the strict pruning comparisons of
the source (`lower_left < center` to descend left/low, `upper_right >
center` to descend right/high). -/
def points_in_box : QuadTree → Point → Point → List Point
  | .mk c _ pts ll ul lr ur, lower_left, upper_right =>
      pts.filter (fun p => decide (p.x ≥ lower_left.x ∧ p.y ≥ lower_left.y ∧
                                   p.x ≤ upper_right.x ∧ p.y ≤ upper_right.y))
      ++ (if lower_left.x < c.x then
            (if lower_left.y < c.y then opt_points_in_box ll lower_left upper_right
             else [])
            ++ (if upper_right.y > c.y then opt_points_in_box ul lower_left upper_right
                else [])
          else [])
      ++ (if upper_right.x > c.x then
            (if lower_left.y < c.y then opt_points_in_box lr lower_left upper_right
             else [])
            ++ (if upper_right.y > c.y then opt_points_in_box ur lower_left upper_right
                else [])
          else [])

/-- The `child and child.points_in_box(...)` step: the box query of an
optional child. -/
def opt_points_in_box : Option QuadTree → Point → Point → List Point
  | some t, lower_left, upper_right => points_in_box t lower_left upper_right
  | none, _, _ => []

end

/-- `QuadTree.points_in_radius`: an early whole-subtree rejection when the
centroid is farther than `radius + width` from the center on either axis,
then a box query over the circle's enclosing square filtered by the exact
squared-distance comparison. -/
def points_in_radius (t : QuadTree) (centroid : Point) (radius : ℚ) : List Point :=
  if |centroid.x - t.center.x| > radius + t.width then [] else
  if |centroid.y - t.center.y| > radius + t.width then [] else
  (points_in_box t ⟨centroid.x - radius, centroid.y - radius⟩
                   ⟨centroid.x + radius, centroid.y + radius⟩).filter
    (fun p => decide ((p.x - centroid.x)^2 + (p.y - centroid.y)^2 ≤ radius^2))

/-- The `for point in points: tree.add_point(point)` loop of `make_tree`:
insert each point in input order, propagating a raised exception. -/
def add_all (t : QuadTree) : List Point → Except String QuadTree
  | [] => .ok t
  | p :: ps =>
    match add_point t p with
    | .ok t' => add_all t' ps
    | .error e => .error e

/-- `make_tree`: bounding box of the (non-empty) input, root centered at
the box center with half-width `max(xmax-xmin, ymax-ymin)/2 + 0.001`, then
every point inserted in order.  `min`/`max` of an empty list raise
`ValueError` in Python. -/
def make_tree (points : List Point) : Except String QuadTree :=
  match points with
  | [] => .error "ValueError"
  | p :: ps =>
    let xmin := ps.foldl (fun m q => min m q.x) p.x
    let xmax := ps.foldl (fun m q => max m q.x) p.x
    let ymin := ps.foldl (fun m q => min m q.y) p.y
    let ymax := ps.foldl (fun m q => max m q.y) p.y
    add_all
      (.mk ⟨(xmax + xmin)/2, (ymax + ymin)/2⟩
           (max (xmax - xmin) (ymax - ymin) / 2 + 1/1000) [] none none none none)
      (p :: ps)

/-- Python `set.add`: append the element unless already present.  Models
the insertion-order view of a Python set as a duplicate-free list. -/
def set_add (acc : List Point) (p : Point) : List Point :=
  if p ∈ acc then acc else acc ++ [p]

/-- Python `set(...)` built from a list by repeated `set_add`. -/
def py_set (l : List Point) : List Point :=
  l.foldl set_add []

/-- `near_points`: the union over all centroids of the radius query,
deduplicated as a Python set (modelled by `set_add` insertion). -/
def near_points (tree : QuadTree) (centroids : List Point) (radius : ℚ) : List Point :=
  centroids.foldl (fun pts centroid =>
    (points_in_radius tree centroid radius).foldl set_add pts) []

/-- Result value of `newton_search`: Python returns an `int` count on
every path except the degenerate `target_count <= 0` one, which returns
the `near_points` set itself. -/
inductive NewtonRet : Type where
  | count (n : ℤ)
  | pts (s : List Point)
deriving DecidableEq, Repr

/-- `_quadratic_interpolate` over `ℚ` with `math.sqrt` as `msqrt`.  The
four `assert`s come first; the `x1 == 0` branch solves the pure power law;
otherwise the quadratic through `(x1,y1)`, `(x2,y2)` (and the origin) is
inverted for `target_y`.  A zero quadratic coefficient makes the final
division raise `ZeroDivisionError`; a negative square-root argument would
raise `ValueError` (math domain error). -/
def _quadratic_interpolate (msqrt : ℚ → ℚ) (x1 y1 x2 y2 target_y : ℚ) :
    Except String ℚ :=
  if ¬ x2 > x1 then .error "AssertionError" else
  if ¬ y2 ≥ y1 then .error "AssertionError" else
  if ¬ x1 ≥ 0 then .error "AssertionError" else
  if ¬ y1 ≥ 0 then .error "AssertionError" else
  if x1 = 0 then
    if y2 = 0 then .error "ZeroDivisionError" else
    if target_y / y2 < 0 then .error "ValueError" else
    .ok (x2 * msqrt (target_y / y2))
  else
    let d := x1 * x2 * (x2 - x1)
    let a := (x1 * y2 - x2 * y1) / d
    let b := (x2^2 * y1 - x1^2 * y2) / d
    if 4 * a * target_y + b^2 < 0 then .error "ValueError" else
    if a = 0 then .error "ZeroDivisionError" else
    .ok ((msqrt (4 * a * target_y + b^2) - b) / (2 * a))

/-- The `while high_radius - low_radius > 0.000001` loop of
`newton_search`, as a function of the bracket state.  `fuel` is the
recursion budget standing in for the termination that the Python loop
derives from float discreteness; exhausting it is a model artifact
(`.error "fuel"`).  The non-fatal warning written to stderr on the
best-effort exit is I/O and is not modelled; the exit's return value
`(high_radius, high_count)` is. -/
def newton_loop (msqrt : ℚ → ℚ) (tree : QuadTree) (centroids : List Point)
    (target_count : ℤ) :
    ℕ → ℚ → ℤ → ℚ → ℤ → Except String (ℚ × NewtonRet)
  | 0, _, _, _, _ => .error "fuel"
  | fuel + 1, low_radius, low_count, high_radius, high_count =>
    if ¬ high_radius - low_radius > 1/1000000 then
      .ok (high_radius, .count high_count)
    else
      match _quadratic_interpolate msqrt low_radius (low_count : ℚ)
              high_radius (high_count : ℚ) (target_count : ℚ) with
      | .error e => .error e
      | .ok mid_radius =>
        if ¬ mid_radius < high_radius then .error "AssertionError" else
        if ¬ mid_radius > low_radius then .error "AssertionError" else
        let mid_count : ℤ := (near_points tree centroids mid_radius).length
        if |(mid_count : ℚ) - (target_count : ℚ)| < 1/2 then
          .ok (mid_radius, .count mid_count)
        else if mid_count < target_count then
          newton_loop msqrt tree centroids target_count fuel
            mid_radius mid_count high_radius high_count
        else
          newton_loop msqrt tree centroids target_count fuel
            low_radius low_count mid_radius mid_count

/-- `newton_search`: degenerate `target_count <= 0` returns
`(0, near_points(tree, centroids, 0))` (the set, not a count); then the
initial radius is evaluated as the low bracket, the covering radius and
deduplicated population as the high bracket, the bracket is flipped when
the initial guess overshoots, and the interpolation loop runs. -/
def newton_search (msqrt : ℚ → ℚ) (fuel : ℕ) (tree : QuadTree)
    (centroids : List Point) (radius : ℚ) (target_count : ℤ) :
    Except String (ℚ × NewtonRet) :=
  if target_count ≤ 0 then .ok (0, .pts (near_points tree centroids 0)) else
  let low_radius := radius
  let low_count : ℤ := (near_points tree centroids radius).length
  if low_count = target_count then .ok (radius, .count low_count) else
  let high_radius := max_radius msqrt tree
  let high_count : ℤ := (py_set (all_points tree)).length
  if high_count ≤ target_count then .ok (high_radius, .count high_count) else
  if low_count > target_count then
    newton_loop msqrt tree centroids target_count fuel 0 0 low_radius low_count
  else
    newton_loop msqrt tree centroids target_count fuel
      low_radius low_count high_radius high_count

/-- `_quadratic_interpolate` in the real-number idealization, with
`Real.sqrt`: used to study the analytic behaviour of the trial-radius
formula (real division by zero is `0` here, where Python raises). -/
noncomputable def quad_interp_real (x1 y1 x2 y2 target_y : ℝ) : ℝ :=
  if x1 = 0 then x2 * Real.sqrt (target_y / y2)
  else
    let d := x1 * x2 * (x2 - x1)
    let a := (x1 * y2 - x2 * y1) / d
    let b := (x2^2 * y1 - x1^2 * y2) / d
    (Real.sqrt (4 * a * target_y + b^2) - b) / (2 * a)

/-- A computable stand-in for `math.sqrt` on rationals (floor square root
at denominator precision), used only to instantiate `msqrt` in concrete
witnesses; all general theorems quantify over the `msqrt` parameter. -/
def rat_sqrt (q : ℚ) : ℚ :=
  (Nat.sqrt (q.num.toNat * q.den) : ℚ) / (q.den : ℚ)

/-! ## Basic lemmas about the embedding -/

theorem fuel_for_le (w : ℚ) (h : w ≤ _MAX_TREE_RESOLUTION) : fuel_for w = 1 := by
  rw [fuel_for]
  simp [h]

theorem fuel_for_gt (w : ℚ) (h : ¬ w ≤ _MAX_TREE_RESOLUTION) :
    fuel_for w = fuel_for (w/2) + 1 := by
  rw [fuel_for]
  simp [h]

/-- Induction over quadtrees, presented through the four optional
children. -/
theorem QuadTree.ind (P : QuadTree → Prop)
    (step : ∀ c w pts ll ul lr ur,
      (∀ t, ll = some t → P t) → (∀ t, ul = some t → P t) →
      (∀ t, lr = some t → P t) → (∀ t, ur = some t → P t) →
      P (.mk c w pts ll ul lr ur)) :
    ∀ t, P t
  | .mk c w pts ll ul lr ur =>
      step c w pts ll ul lr ur
        (fun t h => QuadTree.ind P step t)
        (fun t h => QuadTree.ind P step t)
        (fun t h => QuadTree.ind P step t)
        (fun t h => QuadTree.ind P step t)
termination_by t => sizeOf t
decreasing_by
  all_goals subst h
  all_goals simp
  all_goals omega

mutual

/-- Containment invariant: every point stored at a node or below it lies
in that node's closed square, at every node of the tree. -/
def box_inv : QuadTree → Prop
  | .mk c w pts ll ul lr ur =>
    (∀ p ∈ all_points (.mk c w pts ll ul lr ur), _is_in_box (.mk c w pts ll ul lr ur) p) ∧
    opt_box_inv ll ∧ opt_box_inv ul ∧ opt_box_inv lr ∧ opt_box_inv ur

/-- Containment invariant of an optional child. -/
def opt_box_inv : Option QuadTree → Prop
  | some s => box_inv s
  | none => True

end

mutual

/-- Routing invariant: points in a left (resp. lower) subtree are strictly
left of (resp. below) the center, points in a right (resp. upper) subtree
are at or beyond it — exactly the strict/non-strict split of
`add_point`'s quadrant selection. -/
def route_inv : QuadTree → Prop
  | .mk c _ _ ll ul lr ur =>
    opt_route ll (fun p => p.x < c.x ∧ p.y < c.y) ∧
    opt_route ul (fun p => p.x < c.x ∧ p.y ≥ c.y) ∧
    opt_route lr (fun p => p.x ≥ c.x ∧ p.y < c.y) ∧
    opt_route ur (fun p => p.x ≥ c.x ∧ p.y ≥ c.y)

/-- Routing invariant of an optional child under the given quadrant
condition. -/
def opt_route : Option QuadTree → (Point → Prop) → Prop
  | some s, pred => (∀ p ∈ all_points s, pred p) ∧ route_inv s
  | none, _ => True

end

mutual

/-- Well-formedness: every present child has the center and half-width
that `add_point` gives to the children it creates. -/
def wf_tree : QuadTree → Prop
  | .mk c w _ ll ul lr ur =>
    opt_wf ll ⟨c.x - w/2, c.y - w/2⟩ (w/2) ∧
    opt_wf ul ⟨c.x - w/2, c.y + w/2⟩ (w/2) ∧
    opt_wf lr ⟨c.x + w/2, c.y - w/2⟩ (w/2) ∧
    opt_wf ur ⟨c.x + w/2, c.y + w/2⟩ (w/2)

/-- Well-formedness of an optional child, given the center and half-width
it must carry. -/
def opt_wf : Option QuadTree → Point → ℚ → Prop
  | some s, cc, ww => s.center = cc ∧ s.width = ww ∧ wf_tree s
  | none, _, _ => True

end

mutual

/-- The point `q` does not share an x- or y-coordinate with any node
center of the tree (the coincidences under which the strict pruning of
`points_in_box` can drop stored points). -/
def avoids_centers (q : Point) : QuadTree → Prop
  | .mk c _ _ ll ul lr ur =>
    (q.x ≠ c.x ∧ q.y ≠ c.y) ∧
    opt_avoids q ll ∧ opt_avoids q ul ∧ opt_avoids q lr ∧ opt_avoids q ur

/-- Center-coordinate avoidance for an optional child. -/
def opt_avoids (q : Point) : Option QuadTree → Prop
  | some s => avoids_centers q s
  | none => True

end

theorem mem_set_add (acc : List Point) (q p : Point) :
    p ∈ set_add acc q ↔ p ∈ acc ∨ p = q := by
  unfold set_add
  by_cases h : q ∈ acc
  · simp only [if_pos h]
    constructor
    · exact fun hp => Or.inl hp
    · rintro (hp | rfl)
      · exact hp
      · exact h
  · simp [if_neg h]

theorem mem_foldl_set_add (l acc : List Point) (p : Point) :
    p ∈ l.foldl set_add acc ↔ p ∈ acc ∨ p ∈ l := by
  induction l generalizing acc with
  | nil => simp
  | cons q l ih =>
    rw [List.foldl_cons, ih, mem_set_add]
    simp [or_assoc]

theorem mem_near_points (tree : QuadTree) (centroids : List Point) (radius : ℚ)
    (p : Point) :
    p ∈ near_points tree centroids radius ↔
      ∃ c ∈ centroids, p ∈ points_in_radius tree c radius := by
  unfold near_points
  have aux : ∀ (cs : List Point) (acc : List Point),
      p ∈ cs.foldl (fun pts centroid =>
        (points_in_radius tree centroid radius).foldl set_add pts) acc ↔
      p ∈ acc ∨ ∃ c ∈ cs, p ∈ points_in_radius tree c radius := by
    intro cs
    induction cs with
    | nil => simp
    | cons c cs ih =>
      intro acc
      rw [List.foldl_cons, ih, mem_foldl_set_add]
      simp [or_assoc]
  rw [aux]
  simp

theorem mem_ite_nil {c : Prop} [Decidable c] {l : List Point} {p : Point} :
    p ∈ (if c then l else []) ↔ c ∧ p ∈ l := by
  split_ifs with h <;> simp [h]

theorem mem_opt_all_points (o : Option QuadTree) (p : Point) :
    p ∈ opt_all_points o ↔ ∃ s, o = some s ∧ p ∈ all_points s := by
  cases o <;> simp [opt_all_points]

theorem mem_opt_points_in_box (o : Option QuadTree) (lo hi p : Point) :
    p ∈ opt_points_in_box o lo hi ↔ ∃ s, o = some s ∧ p ∈ points_in_box s lo hi := by
  cases o <;> simp [opt_points_in_box]

theorem mem_all_points_iff (c : Point) (w : ℚ) (pts : List Point)
    (ll ul lr ur : Option QuadTree) (p : Point) :
    p ∈ all_points (.mk c w pts ll ul lr ur) ↔
      p ∈ pts ∨ (∃ s, ll = some s ∧ p ∈ all_points s) ∨
      (∃ s, ul = some s ∧ p ∈ all_points s) ∨
      (∃ s, lr = some s ∧ p ∈ all_points s) ∨
      (∃ s, ur = some s ∧ p ∈ all_points s) := by
  simp [all_points, mem_opt_all_points, or_assoc]

theorem mem_points_in_box_iff (c : Point) (w : ℚ) (pts : List Point)
    (ll ul lr ur : Option QuadTree) (lo hi p : Point) :
    p ∈ points_in_box (.mk c w pts ll ul lr ur) lo hi ↔
      (p ∈ pts ∧ lo.x ≤ p.x ∧ lo.y ≤ p.y ∧ p.x ≤ hi.x ∧ p.y ≤ hi.y) ∨
      (lo.x < c.x ∧ lo.y < c.y ∧ ∃ s, ll = some s ∧ p ∈ points_in_box s lo hi) ∨
      (lo.x < c.x ∧ hi.y > c.y ∧ ∃ s, ul = some s ∧ p ∈ points_in_box s lo hi) ∨
      (hi.x > c.x ∧ lo.y < c.y ∧ ∃ s, lr = some s ∧ p ∈ points_in_box s lo hi) ∨
      (hi.x > c.x ∧ hi.y > c.y ∧ ∃ s, ur = some s ∧ p ∈ points_in_box s lo hi) := by
  simp only [points_in_box, List.mem_append, mem_ite_nil, mem_opt_points_in_box,
    List.mem_filter, decide_eq_true_eq, ge_iff_le, gt_iff_lt]
  constructor
  · rintro ((⟨hm, h⟩ | ⟨hx, (⟨hy, hs⟩ | ⟨hy, hs⟩)⟩) | ⟨hx, (⟨hy, hs⟩ | ⟨hy, hs⟩)⟩)
    · exact Or.inl ⟨hm, h.1, h.2.1, h.2.2.1, h.2.2.2⟩
    · exact Or.inr (Or.inl ⟨hx, hy, hs⟩)
    · exact Or.inr (Or.inr (Or.inl ⟨hx, hy, hs⟩))
    · exact Or.inr (Or.inr (Or.inr (Or.inl ⟨hx, hy, hs⟩)))
    · exact Or.inr (Or.inr (Or.inr (Or.inr ⟨hx, hy, hs⟩)))
  · rintro (⟨hm, h1, h2, h3, h4⟩ | ⟨hx, hy, hs⟩ | ⟨hx, hy, hs⟩ | ⟨hx, hy, hs⟩ | ⟨hx, hy, hs⟩)
    · exact Or.inl (Or.inl ⟨hm, h1, h2, h3, h4⟩)
    · exact Or.inl (Or.inr ⟨hx, Or.inl ⟨hy, hs⟩⟩)
    · exact Or.inl (Or.inr ⟨hx, Or.inr ⟨hy, hs⟩⟩)
    · exact Or.inr ⟨hx, Or.inl ⟨hy, hs⟩⟩
    · exact Or.inr ⟨hx, Or.inr ⟨hy, hs⟩⟩

theorem mem_points_in_radius_iff (t : QuadTree) (c : Point) (r : ℚ) (p : Point) :
    p ∈ points_in_radius t c r ↔
      ¬ |c.x - t.center.x| > r + t.width ∧ ¬ |c.y - t.center.y| > r + t.width ∧
      p ∈ points_in_box t ⟨c.x - r, c.y - r⟩ ⟨c.x + r, c.y + r⟩ ∧
      (p.x - c.x)^2 + (p.y - c.y)^2 ≤ r^2 := by
  unfold points_in_radius
  split_ifs with h1 h2
  · simp [h1]
  · simp [h1, h2]
  · simp [h1, h2, List.mem_filter]

/-- Soundness of the box query: everything it yields is stored in the
subtree and lies in the closed query rectangle. -/
theorem points_in_box_sound :
    ∀ (t : QuadTree) (lo hi p : Point), p ∈ points_in_box t lo hi →
      p ∈ all_points t ∧ lo.x ≤ p.x ∧ lo.y ≤ p.y ∧ p.x ≤ hi.x ∧ p.y ≤ hi.y := by
  intro t
  induction t using QuadTree.ind with
  | step c w pts ll ul lr ur ihll ihul ihlr ihur =>
    intro lo hi p hp
    rw [mem_points_in_box_iff] at hp
    rw [mem_all_points_iff]
    rcases hp with ⟨hmem, h1, h2, h3, h4⟩ |
      ⟨_, _, s, hs, hp⟩ | ⟨_, _, s, hs, hp⟩ | ⟨_, _, s, hs, hp⟩ | ⟨_, _, s, hs, hp⟩
    · exact ⟨Or.inl hmem, h1, h2, h3, h4⟩
    · obtain ⟨hm, h1, h2, h3, h4⟩ := ihll s hs lo hi p hp
      exact ⟨Or.inr (Or.inl ⟨s, hs, hm⟩), h1, h2, h3, h4⟩
    · obtain ⟨hm, h1, h2, h3, h4⟩ := ihul s hs lo hi p hp
      exact ⟨Or.inr (Or.inr (Or.inl ⟨s, hs, hm⟩)), h1, h2, h3, h4⟩
    · obtain ⟨hm, h1, h2, h3, h4⟩ := ihlr s hs lo hi p hp
      exact ⟨Or.inr (Or.inr (Or.inr (Or.inl ⟨s, hs, hm⟩))), h1, h2, h3, h4⟩
    · obtain ⟨hm, h1, h2, h3, h4⟩ := ihur s hs lo hi p hp
      exact ⟨Or.inr (Or.inr (Or.inr (Or.inr ⟨s, hs, hm⟩))), h1, h2, h3, h4⟩

theorem box_inv_self {t : QuadTree} (h : box_inv t) :
    ∀ p ∈ all_points t, _is_in_box t p := by
  cases t with
  | mk c w pts ll ul lr ur =>
    simp only [box_inv] at h
    exact h.1

/-- Completeness of the box query: under the routing invariant, any stored
point inside the closed rectangle is yielded, provided the upper-right
query corner shares no coordinate with any node center. -/
theorem points_in_box_complete :
    ∀ (t : QuadTree), route_inv t → ∀ (hi : Point), avoids_centers hi t →
      ∀ (lo p : Point), p ∈ all_points t →
        lo.x ≤ p.x → lo.y ≤ p.y → p.x ≤ hi.x → p.y ≤ hi.y →
        p ∈ points_in_box t lo hi := by
  intro t
  induction t using QuadTree.ind with
  | step c w pts ll ul lr ur ihll ihul ihlr ihur =>
    intro hroute hi havoid lo p hmem h1 h2 h3 h4
    simp only [route_inv] at hroute
    obtain ⟨hrll, hrul, hrlr, hrur⟩ := hroute
    simp only [avoids_centers] at havoid
    obtain ⟨⟨hax, hay⟩, havll, havul, havlr, havur⟩ := havoid
    rw [mem_all_points_iff] at hmem
    rw [mem_points_in_box_iff]
    rcases hmem with hm | ⟨s, hs, hm⟩ | ⟨s, hs, hm⟩ | ⟨s, hs, hm⟩ | ⟨s, hs, hm⟩
    · exact Or.inl ⟨hm, h1, h2, h3, h4⟩
    · rw [hs] at hrll havll
      simp only [opt_route] at hrll
      simp only [opt_avoids] at havll
      obtain ⟨hpred, hrs⟩ := hrll
      obtain ⟨hpx, hpy⟩ := hpred p hm
      exact Or.inr (Or.inl ⟨lt_of_le_of_lt h1 hpx, lt_of_le_of_lt h2 hpy, s, hs,
        ihll s hs hrs hi havll lo p hm h1 h2 h3 h4⟩)
    · rw [hs] at hrul havul
      simp only [opt_route] at hrul
      simp only [opt_avoids] at havul
      obtain ⟨hpred, hrs⟩ := hrul
      obtain ⟨hpx, hpy⟩ := hpred p hm
      have hcy : c.y < hi.y := lt_of_le_of_ne (le_trans hpy h4) (Ne.symm hay)
      exact Or.inr (Or.inr (Or.inl ⟨lt_of_le_of_lt h1 hpx, hcy, s, hs,
        ihul s hs hrs hi havul lo p hm h1 h2 h3 h4⟩))
    · rw [hs] at hrlr havlr
      simp only [opt_route] at hrlr
      simp only [opt_avoids] at havlr
      obtain ⟨hpred, hrs⟩ := hrlr
      obtain ⟨hpx, hpy⟩ := hpred p hm
      have hcx : c.x < hi.x := lt_of_le_of_ne (le_trans hpx h3) (Ne.symm hax)
      exact Or.inr (Or.inr (Or.inr (Or.inl ⟨hcx, lt_of_le_of_lt h2 hpy, s, hs,
        ihlr s hs hrs hi havlr lo p hm h1 h2 h3 h4⟩)))
    · rw [hs] at hrur havur
      simp only [opt_route] at hrur
      simp only [opt_avoids] at havur
      obtain ⟨hpred, hrs⟩ := hrur
      obtain ⟨hpx, hpy⟩ := hpred p hm
      have hcx : c.x < hi.x := lt_of_le_of_ne (le_trans hpx h3) (Ne.symm hax)
      have hcy : c.y < hi.y := lt_of_le_of_ne (le_trans hpy h4) (Ne.symm hay)
      exact Or.inr (Or.inr (Or.inr (Or.inr ⟨hcx, hcy, s, hs,
        ihur s hs hrs hi havur lo p hm h1 h2 h3 h4⟩)))

/-- Soundness of the radius query: everything yielded is stored and within
the radius (by the exact squared-distance comparison). -/
theorem points_in_radius_sound (t : QuadTree) (c : Point) (r : ℚ) (p : Point)
    (hp : p ∈ points_in_radius t c r) :
    p ∈ all_points t ∧ (p.x - c.x)^2 + (p.y - c.y)^2 ≤ r^2 := by
  rw [mem_points_in_radius_iff] at hp
  exact ⟨(points_in_box_sound t _ _ p hp.2.2.1).1, hp.2.2.2⟩

/-- Completeness of the radius query under the containment and routing
invariants, for nonnegative radius, when the upper corner of the circle's
bounding square shares no coordinate with any node center. -/
theorem points_in_radius_complete (t : QuadTree) (c : Point) (r : ℚ) (p : Point)
    (hbox : box_inv t) (hroute : route_inv t) (hr : 0 ≤ r)
    (hav : avoids_centers ⟨c.x + r, c.y + r⟩ t)
    (hm : p ∈ all_points t) (hd : (p.x - c.x)^2 + (p.y - c.y)^2 ≤ r^2) :
    p ∈ points_in_radius t c r := by
  have hdx : (p.x - c.x)^2 ≤ r^2 := le_trans (by nlinarith [sq_nonneg (p.y - c.y)]) hd
  have hdy : (p.y - c.y)^2 ≤ r^2 := le_trans (by nlinarith [sq_nonneg (p.x - c.x)]) hd
  have b1 : c.x - r ≤ p.x := by nlinarith
  have b2 : p.x ≤ c.x + r := by nlinarith
  have b3 : c.y - r ≤ p.y := by nlinarith
  have b4 : p.y ≤ c.y + r := by nlinarith
  have hin : _is_in_box t p := box_inv_self hbox p hm
  obtain ⟨i1, i2, i3, i4⟩ := hin
  rw [mem_points_in_radius_iff]
  refine ⟨?_, ?_, ?_, hd⟩
  · have habs : |c.x - t.center.x| ≤ r + t.width :=
      abs_le.mpr ⟨by linarith, by linarith⟩
    exact not_lt.mpr habs
  · have habs : |c.y - t.center.y| ≤ r + t.width :=
      abs_le.mpr ⟨by linarith, by linarith⟩
    exact not_lt.mpr habs
  · exact points_in_box_complete t hroute ⟨c.x + r, c.y + r⟩ hav ⟨c.x - r, c.y - r⟩ p
      hm b1 b3 b2 b4

/-- The box query is monotone in the query rectangle. -/
theorem points_in_box_mono :
    ∀ (t : QuadTree) (lo hi lo' hi' p : Point),
      lo'.x ≤ lo.x → lo'.y ≤ lo.y → hi.x ≤ hi'.x → hi.y ≤ hi'.y →
      p ∈ points_in_box t lo hi → p ∈ points_in_box t lo' hi' := by
  intro t
  induction t using QuadTree.ind with
  | step c w pts ll ul lr ur ihll ihul ihlr ihur =>
    intro lo hi lo' hi' p a1 a2 a3 a4 hp
    rw [mem_points_in_box_iff] at hp
    rw [mem_points_in_box_iff]
    rcases hp with ⟨hm, h1, h2, h3, h4⟩ | ⟨hx, hy, s, hs, hm⟩ | ⟨hx, hy, s, hs, hm⟩ |
      ⟨hx, hy, s, hs, hm⟩ | ⟨hx, hy, s, hs, hm⟩
    · exact Or.inl ⟨hm, le_trans a1 h1, le_trans a2 h2, le_trans h3 a3, le_trans h4 a4⟩
    · exact Or.inr (Or.inl ⟨lt_of_le_of_lt a1 hx, lt_of_le_of_lt a2 hy, s, hs,
        ihll s hs _ _ _ _ p a1 a2 a3 a4 hm⟩)
    · exact Or.inr (Or.inr (Or.inl ⟨lt_of_le_of_lt a1 hx, lt_of_lt_of_le hy a4, s, hs,
        ihul s hs _ _ _ _ p a1 a2 a3 a4 hm⟩))
    · exact Or.inr (Or.inr (Or.inr (Or.inl ⟨lt_of_lt_of_le hx a3, lt_of_le_of_lt a2 hy, s, hs,
        ihlr s hs _ _ _ _ p a1 a2 a3 a4 hm⟩)))
    · exact Or.inr (Or.inr (Or.inr (Or.inr ⟨lt_of_lt_of_le hx a3, lt_of_lt_of_le hy a4, s, hs,
        ihur s hs _ _ _ _ p a1 a2 a3 a4 hm⟩)))

/-- The radius query is monotone in the radius, for nonnegative radii. -/
theorem points_in_radius_mono (t : QuadTree) (c : Point) (r1 r2 : ℚ) (p : Point)
    (h0 : 0 ≤ r1) (h12 : r1 ≤ r2) (hp : p ∈ points_in_radius t c r1) :
    p ∈ points_in_radius t c r2 := by
  rw [mem_points_in_radius_iff] at hp
  obtain ⟨e1, e2, hbox, hd⟩ := hp
  rw [mem_points_in_radius_iff]
  refine ⟨?_, ?_, ?_, le_trans hd (by nlinarith)⟩
  · intro habs
    exact e1 (by linarith)
  · intro habs
    exact e2 (by linarith)
  · exact points_in_box_mono t _ _ _ _ p (by simp; linarith) (by simp; linarith)
      (by simp; linarith) (by simp; linarith) hbox

theorem _is_in_box_mk (c : Point) (w : ℚ) (pts : List Point)
    (ll ul lr ur : Option QuadTree) (q : Point) :
    _is_in_box (.mk c w pts ll ul lr ur) q ↔
      (c.x - w ≤ q.x ∧ q.x ≤ c.x + w ∧ c.y - w ≤ q.y ∧ q.y ≤ c.y + w) := by
  simp [_is_in_box, QuadTree.center, QuadTree.width, ge_iff_le]

theorem perm_pull_cons {L Z Z' : List Point} {p : Point} (h : List.Perm Z (p :: Z')) :
    List.Perm (L ++ Z) (p :: (L ++ Z')) :=
  (h.append_left L).trans List.perm_middle

theorem wf_tree_leaf (c : Point) (w : ℚ) (pts : List Point) :
    wf_tree (.mk c w pts none none none none) := by
  simp [wf_tree, opt_wf]

theorem box_inv_empty (c : Point) (w : ℚ) :
    box_inv (.mk c w [] none none none none) := by
  simp [box_inv, opt_box_inv, all_points, opt_all_points]

theorem route_inv_leaf (c : Point) (w : ℚ) (pts : List Point) :
    route_inv (.mk c w pts none none none none) := by
  simp [route_inv, opt_route]

theorem fuel_for_pos (w : ℚ) : 1 ≤ fuel_for w := by
  rw [fuel_for]
  split_ifs <;> omega

/-! ## Specification of `add_point`: success and invariant preservation -/

theorem add_point_go_step_ll_some (c : Point) (w : ℚ) (pts : List Point)
    (s : QuadTree) (ul lr ur : Option QuadTree) (p : Point) (n : ℕ) (t'' : QuadTree)
    (hin : _is_in_box (.mk c w pts (some s) ul lr ur) p)
    (hw : ¬ w ≤ _MAX_TREE_RESOLUTION) (hx : p.x < c.x) (hy : p.y < c.y)
    (hgo : add_point_go n s p = .ok t'') :
    add_point_go (n+1) (.mk c w pts (some s) ul lr ur) p = .ok (.mk c w pts (some t'') ul lr ur) := by
  rw [add_point_go.eq_def]
  rw [if_neg (not_not_intro hin)]
  simp only []
  rw [if_neg hw]
  simp only [if_pos hx, if_pos hy, hgo]

theorem add_point_go_step_ll_none (c : Point) (w : ℚ) (pts : List Point)
    (ul lr ur : Option QuadTree) (p : Point) (n : ℕ) (t'' : QuadTree)
    (hin : _is_in_box (.mk c w pts none ul lr ur) p)
    (hw : ¬ w ≤ _MAX_TREE_RESOLUTION) (hx : p.x < c.x) (hy : p.y < c.y)
    (hgo : add_point_go n (.mk ⟨c.x - w/2, c.y - w/2⟩ (w/2) [] none none none none) p = .ok t'') :
    add_point_go (n+1) (.mk c w pts none ul lr ur) p = .ok (.mk c w pts (some t'') ul lr ur) := by
  rw [add_point_go.eq_def]
  rw [if_neg (not_not_intro hin)]
  simp only []
  rw [if_neg hw]
  simp only [if_pos hx, if_pos hy, hgo]

theorem add_point_go_step_ul_some (c : Point) (w : ℚ) (pts : List Point)
    (s : QuadTree) (ll lr ur : Option QuadTree) (p : Point) (n : ℕ) (t'' : QuadTree)
    (hin : _is_in_box (.mk c w pts ll (some s) lr ur) p)
    (hw : ¬ w ≤ _MAX_TREE_RESOLUTION) (hx : p.x < c.x) (hy : ¬ p.y < c.y)
    (hgo : add_point_go n s p = .ok t'') :
    add_point_go (n+1) (.mk c w pts ll (some s) lr ur) p = .ok (.mk c w pts ll (some t'') lr ur) := by
  rw [add_point_go.eq_def]
  rw [if_neg (not_not_intro hin)]
  simp only []
  rw [if_neg hw]
  simp only [if_pos hx, if_neg hy, hgo]

theorem add_point_go_step_ul_none (c : Point) (w : ℚ) (pts : List Point)
    (ll lr ur : Option QuadTree) (p : Point) (n : ℕ) (t'' : QuadTree)
    (hin : _is_in_box (.mk c w pts ll none lr ur) p)
    (hw : ¬ w ≤ _MAX_TREE_RESOLUTION) (hx : p.x < c.x) (hy : ¬ p.y < c.y)
    (hgo : add_point_go n (.mk ⟨c.x - w/2, c.y + w/2⟩ (w/2) [] none none none none) p = .ok t'') :
    add_point_go (n+1) (.mk c w pts ll none lr ur) p = .ok (.mk c w pts ll (some t'') lr ur) := by
  rw [add_point_go.eq_def]
  rw [if_neg (not_not_intro hin)]
  simp only []
  rw [if_neg hw]
  simp only [if_pos hx, if_neg hy, hgo]

theorem add_point_go_step_lr_some (c : Point) (w : ℚ) (pts : List Point)
    (s : QuadTree) (ll ul ur : Option QuadTree) (p : Point) (n : ℕ) (t'' : QuadTree)
    (hin : _is_in_box (.mk c w pts ll ul (some s) ur) p)
    (hw : ¬ w ≤ _MAX_TREE_RESOLUTION) (hx : ¬ p.x < c.x) (hy : p.y < c.y)
    (hgo : add_point_go n s p = .ok t'') :
    add_point_go (n+1) (.mk c w pts ll ul (some s) ur) p = .ok (.mk c w pts ll ul (some t'') ur) := by
  rw [add_point_go.eq_def]
  rw [if_neg (not_not_intro hin)]
  simp only []
  rw [if_neg hw]
  simp only [if_neg hx, if_pos hy, hgo]

theorem add_point_go_step_lr_none (c : Point) (w : ℚ) (pts : List Point)
    (ll ul ur : Option QuadTree) (p : Point) (n : ℕ) (t'' : QuadTree)
    (hin : _is_in_box (.mk c w pts ll ul none ur) p)
    (hw : ¬ w ≤ _MAX_TREE_RESOLUTION) (hx : ¬ p.x < c.x) (hy : p.y < c.y)
    (hgo : add_point_go n (.mk ⟨c.x + w/2, c.y - w/2⟩ (w/2) [] none none none none) p = .ok t'') :
    add_point_go (n+1) (.mk c w pts ll ul none ur) p = .ok (.mk c w pts ll ul (some t'') ur) := by
  rw [add_point_go.eq_def]
  rw [if_neg (not_not_intro hin)]
  simp only []
  rw [if_neg hw]
  simp only [if_neg hx, if_pos hy, hgo]

theorem add_point_go_step_ur_some (c : Point) (w : ℚ) (pts : List Point)
    (s : QuadTree) (ll ul lr : Option QuadTree) (p : Point) (n : ℕ) (t'' : QuadTree)
    (hin : _is_in_box (.mk c w pts ll ul lr (some s)) p)
    (hw : ¬ w ≤ _MAX_TREE_RESOLUTION) (hx : ¬ p.x < c.x) (hy : ¬ p.y < c.y)
    (hgo : add_point_go n s p = .ok t'') :
    add_point_go (n+1) (.mk c w pts ll ul lr (some s)) p = .ok (.mk c w pts ll ul lr (some t'')) := by
  rw [add_point_go.eq_def]
  rw [if_neg (not_not_intro hin)]
  simp only []
  rw [if_neg hw]
  simp only [if_neg hx, if_neg hy, hgo]

theorem add_point_go_step_ur_none (c : Point) (w : ℚ) (pts : List Point)
    (ll ul lr : Option QuadTree) (p : Point) (n : ℕ) (t'' : QuadTree)
    (hin : _is_in_box (.mk c w pts ll ul lr none) p)
    (hw : ¬ w ≤ _MAX_TREE_RESOLUTION) (hx : ¬ p.x < c.x) (hy : ¬ p.y < c.y)
    (hgo : add_point_go n (.mk ⟨c.x + w/2, c.y + w/2⟩ (w/2) [] none none none none) p = .ok t'') :
    add_point_go (n+1) (.mk c w pts ll ul lr none) p = .ok (.mk c w pts ll ul lr (some t'')) := by
  rw [add_point_go.eq_def]
  rw [if_neg (not_not_intro hin)]
  simp only []
  rw [if_neg hw]
  simp only [if_neg hx, if_neg hy, hgo]

/-- Main specification of `add_point_go`: on a well-formed tree satisfying
the containment and routing invariants, inserting a contained point with
enough fuel succeeds, preserves center, width and all three invariants,
and adds exactly the new point to the stored collection. -/
theorem add_point_go_spec :
    ∀ (n : ℕ) (t : QuadTree) (p : Point),
      fuel_for t.width ≤ n → wf_tree t → box_inv t → route_inv t → _is_in_box t p →
      ∃ t', add_point_go n t p = .ok t' ∧
        t'.center = t.center ∧ t'.width = t.width ∧
        wf_tree t' ∧ box_inv t' ∧ route_inv t' ∧
        List.Perm (all_points t') (p :: all_points t) := by
  intro n
  induction n with
  | zero =>
    intro t p hfuel
    exact absurd hfuel (by have := fuel_for_pos t.width; omega)
  | succ n ih =>
    rintro ⟨c, w, pts, ll, ul, lr, ur⟩ p hfuel hwf hbox hroute hin
    simp only [QuadTree.width] at hfuel
    by_cases hw : w ≤ _MAX_TREE_RESOLUTION
    · have hperm : List.Perm (all_points (.mk c w (pts ++ [p]) ll ul lr ur))
          (p :: all_points (.mk c w pts ll ul lr ur)) := by
        simp only [all_points, List.append_assoc, List.cons_append, List.singleton_append]
        exact List.perm_middle
      refine ⟨.mk c w (pts ++ [p]) ll ul lr ur, ?_, rfl, rfl, ?_, ?_, ?_, hperm⟩
      · rw [add_point_go.eq_def]
        rw [if_neg (not_not_intro hin)]
        simp only []
        rw [if_pos hw]
      · simp only [wf_tree] at hwf ⊢
        exact hwf
      · simp only [box_inv] at hbox ⊢
        refine ⟨?_, hbox.2.1, hbox.2.2.1, hbox.2.2.2.1, hbox.2.2.2.2⟩
        intro q hq
        rcases List.mem_cons.mp (hperm.mem_iff.mp hq) with rfl | hq'
        · rw [_is_in_box_mk]
          rw [_is_in_box_mk] at hin
          exact hin
        · rw [_is_in_box_mk]
          have := hbox.1 q hq'
          rw [_is_in_box_mk] at this
          exact this
      · simp only [route_inv] at hroute ⊢
        exact hroute
    · have hfuel2 : fuel_for (w/2) ≤ n := by
        have := fuel_for_gt w hw
        omega
      rw [_is_in_box_mk] at hin
      obtain ⟨hin1, hin2, hin3, hin4⟩ := hin
      simp only [wf_tree] at hwf
      obtain ⟨hwll, hwul, hwlr, hwur⟩ := hwf
      simp only [box_inv] at hbox
      obtain ⟨hb0, hbll, hbul, hblr, hbur⟩ := hbox
      simp only [route_inv] at hroute
      obtain ⟨hrll, hrul, hrlr, hrur⟩ := hroute
      by_cases hx : p.x < c.x
      · by_cases hy : p.y < c.y
        · -- lower-left
          cases hllc : ll with
          | some s =>
            subst hllc
            simp only [opt_wf] at hwll
            obtain ⟨hsc, hsw, hswf⟩ := hwll
            simp only [opt_box_inv] at hbll
            simp only [opt_route] at hrll
            obtain ⟨hsall, hsroute⟩ := hrll
            have hsin : _is_in_box s p := by
              unfold _is_in_box
              rw [hsc, hsw]
              refine ⟨by simp; linarith, by simp; linarith, by simp; linarith, by simp; linarith⟩
            obtain ⟨t'', hgo, htc, htw, hwf'', hbox'', hroute'', hperm''⟩ :=
              ih s p (by rw [hsw]; exact hfuel2) hswf hbll hsroute hsin
            have hperm : List.Perm (all_points (.mk c w pts (some t'') ul lr ur))
                (p :: all_points (.mk c w pts (some s) ul lr ur)) := by
              rw [List.perm_iff_count]
              intro a
              have h := hperm''.count_eq a
              simp only [all_points, opt_all_points, List.count_append, List.count_cons,
                List.count_nil] at h ⊢
              by_cases hpa : a = p <;> simp [hpa] at h ⊢ <;> omega
            refine ⟨.mk c w pts (some t'') ul lr ur, ?_, rfl, rfl, ?_, ?_, ?_, hperm⟩
            · exact add_point_go_step_ll_some c w pts s _ _ _ p n t''
                (by rw [_is_in_box_mk]; exact ⟨hin1, hin2, hin3, hin4⟩) hw hx hy hgo
            · simp only [wf_tree, opt_wf]
              exact ⟨⟨htc.trans hsc, htw.trans hsw, hwf''⟩, hwul, hwlr, hwur⟩
            · simp only [box_inv, opt_box_inv]
              refine ⟨?_, hbox'', hbul, hblr, hbur⟩
              intro q hq
              rcases List.mem_cons.mp (hperm.mem_iff.mp hq) with rfl | hq'
              · rw [_is_in_box_mk]
                exact ⟨hin1, hin2, hin3, hin4⟩
              · have := hb0 q hq'
                rw [_is_in_box_mk] at this
                rw [_is_in_box_mk]
                exact this
            · simp only [route_inv, opt_route]
              refine ⟨⟨?_, hroute''⟩, hrul, hrlr, hrur⟩
              intro q hq
              rcases List.mem_cons.mp (hperm''.mem_iff.mp hq) with rfl | hq'
              · exact ⟨hx, hy⟩
              · exact hsall q hq'
          | none =>
            subst hllc
            have hsin : _is_in_box (.mk ⟨c.x - w/2, c.y - w/2⟩ (w/2) [] none none none none) p := by
              rw [_is_in_box_mk]
              refine ⟨by simp; linarith, by simp; linarith, by simp; linarith, by simp; linarith⟩
            obtain ⟨t'', hgo, htc, htw, hwf'', hbox'', hroute'', hperm''⟩ :=
              ih (.mk ⟨c.x - w/2, c.y - w/2⟩ (w/2) [] none none none none) p
                (by simp only [QuadTree.width]; exact hfuel2)
                (wf_tree_leaf _ _ _) (box_inv_empty _ _) (route_inv_leaf _ _ _) hsin
            have hperm : List.Perm (all_points (.mk c w pts (some t'') ul lr ur))
                (p :: all_points (.mk c w pts none ul lr ur)) := by
              rw [List.perm_iff_count]
              intro a
              have h := hperm''.count_eq a
              simp only [all_points, opt_all_points, List.count_append, List.count_cons,
                List.count_nil] at h ⊢
              by_cases hpa : a = p <;> simp [hpa] at h ⊢ <;> omega
            refine ⟨.mk c w pts (some t'') ul lr ur, ?_, rfl, rfl, ?_, ?_, ?_, hperm⟩
            · exact add_point_go_step_ll_none c w pts _ _ _ p n t''
                (by rw [_is_in_box_mk]; exact ⟨hin1, hin2, hin3, hin4⟩) hw hx hy hgo
            · simp only [wf_tree, opt_wf]
              exact ⟨⟨htc, htw, hwf''⟩, hwul, hwlr, hwur⟩
            · simp only [box_inv, opt_box_inv]
              refine ⟨?_, hbox'', hbul, hblr, hbur⟩
              intro q hq
              rcases List.mem_cons.mp (hperm.mem_iff.mp hq) with rfl | hq'
              · rw [_is_in_box_mk]
                exact ⟨hin1, hin2, hin3, hin4⟩
              · have := hb0 q hq'
                rw [_is_in_box_mk] at this
                rw [_is_in_box_mk]
                exact this
            · simp only [route_inv, opt_route]
              refine ⟨⟨?_, hroute''⟩, hrul, hrlr, hrur⟩
              intro q hq
              rcases List.mem_cons.mp (hperm''.mem_iff.mp hq) with rfl | hq'
              · exact ⟨hx, hy⟩
              · exact absurd hq' (by simp [all_points, opt_all_points])
        · -- upper-left
          cases hulc : ul with
          | some s =>
            subst hulc
            simp only [opt_wf] at hwul
            obtain ⟨hsc, hsw, hswf⟩ := hwul
            simp only [opt_box_inv] at hbul
            simp only [opt_route] at hrul
            obtain ⟨hsall, hsroute⟩ := hrul
            have hsin : _is_in_box s p := by
              unfold _is_in_box
              rw [hsc, hsw]
              refine ⟨by simp; linarith, by simp; linarith, by simp; linarith, by simp; linarith⟩
            obtain ⟨t'', hgo, htc, htw, hwf'', hbox'', hroute'', hperm''⟩ :=
              ih s p (by rw [hsw]; exact hfuel2) hswf hbul hsroute hsin
            have hperm : List.Perm (all_points (.mk c w pts ll (some t'') lr ur))
                (p :: all_points (.mk c w pts ll (some s) lr ur)) := by
              rw [List.perm_iff_count]
              intro a
              have h := hperm''.count_eq a
              simp only [all_points, opt_all_points, List.count_append, List.count_cons,
                List.count_nil] at h ⊢
              by_cases hpa : a = p <;> simp [hpa] at h ⊢ <;> omega
            refine ⟨.mk c w pts ll (some t'') lr ur, ?_, rfl, rfl, ?_, ?_, ?_, hperm⟩
            · exact add_point_go_step_ul_some c w pts s _ _ _ p n t''
                (by rw [_is_in_box_mk]; exact ⟨hin1, hin2, hin3, hin4⟩) hw hx hy hgo
            · simp only [wf_tree, opt_wf]
              exact ⟨hwll, ⟨htc.trans hsc, htw.trans hsw, hwf''⟩, hwlr, hwur⟩
            · simp only [box_inv, opt_box_inv]
              refine ⟨?_, hbll, hbox'', hblr, hbur⟩
              intro q hq
              rcases List.mem_cons.mp (hperm.mem_iff.mp hq) with rfl | hq'
              · rw [_is_in_box_mk]
                exact ⟨hin1, hin2, hin3, hin4⟩
              · have := hb0 q hq'
                rw [_is_in_box_mk] at this
                rw [_is_in_box_mk]
                exact this
            · simp only [route_inv, opt_route]
              refine ⟨hrll, ⟨?_, hroute''⟩, hrlr, hrur⟩
              intro q hq
              rcases List.mem_cons.mp (hperm''.mem_iff.mp hq) with rfl | hq'
              · exact ⟨hx, not_lt.mp hy⟩
              · exact hsall q hq'
          | none =>
            subst hulc
            have hsin : _is_in_box (.mk ⟨c.x - w/2, c.y + w/2⟩ (w/2) [] none none none none) p := by
              rw [_is_in_box_mk]
              refine ⟨by simp; linarith, by simp; linarith, by simp; linarith, by simp; linarith⟩
            obtain ⟨t'', hgo, htc, htw, hwf'', hbox'', hroute'', hperm''⟩ :=
              ih (.mk ⟨c.x - w/2, c.y + w/2⟩ (w/2) [] none none none none) p
                (by simp only [QuadTree.width]; exact hfuel2)
                (wf_tree_leaf _ _ _) (box_inv_empty _ _) (route_inv_leaf _ _ _) hsin
            have hperm : List.Perm (all_points (.mk c w pts ll (some t'') lr ur))
                (p :: all_points (.mk c w pts ll none lr ur)) := by
              rw [List.perm_iff_count]
              intro a
              have h := hperm''.count_eq a
              simp only [all_points, opt_all_points, List.count_append, List.count_cons,
                List.count_nil] at h ⊢
              by_cases hpa : a = p <;> simp [hpa] at h ⊢ <;> omega
            refine ⟨.mk c w pts ll (some t'') lr ur, ?_, rfl, rfl, ?_, ?_, ?_, hperm⟩
            · exact add_point_go_step_ul_none c w pts _ _ _ p n t''
                (by rw [_is_in_box_mk]; exact ⟨hin1, hin2, hin3, hin4⟩) hw hx hy hgo
            · simp only [wf_tree, opt_wf]
              exact ⟨hwll, ⟨htc, htw, hwf''⟩, hwlr, hwur⟩
            · simp only [box_inv, opt_box_inv]
              refine ⟨?_, hbll, hbox'', hblr, hbur⟩
              intro q hq
              rcases List.mem_cons.mp (hperm.mem_iff.mp hq) with rfl | hq'
              · rw [_is_in_box_mk]
                exact ⟨hin1, hin2, hin3, hin4⟩
              · have := hb0 q hq'
                rw [_is_in_box_mk] at this
                rw [_is_in_box_mk]
                exact this
            · simp only [route_inv, opt_route]
              refine ⟨hrll, ⟨?_, hroute''⟩, hrlr, hrur⟩
              intro q hq
              rcases List.mem_cons.mp (hperm''.mem_iff.mp hq) with rfl | hq'
              · exact ⟨hx, not_lt.mp hy⟩
              · exact absurd hq' (by simp [all_points, opt_all_points])
      · by_cases hy : p.y < c.y
        · -- lower-right
          cases hlrc : lr with
          | some s =>
            subst hlrc
            simp only [opt_wf] at hwlr
            obtain ⟨hsc, hsw, hswf⟩ := hwlr
            simp only [opt_box_inv] at hblr
            simp only [opt_route] at hrlr
            obtain ⟨hsall, hsroute⟩ := hrlr
            have hsin : _is_in_box s p := by
              unfold _is_in_box
              rw [hsc, hsw]
              refine ⟨by simp; linarith, by simp; linarith, by simp; linarith, by simp; linarith⟩
            obtain ⟨t'', hgo, htc, htw, hwf'', hbox'', hroute'', hperm''⟩ :=
              ih s p (by rw [hsw]; exact hfuel2) hswf hblr hsroute hsin
            have hperm : List.Perm (all_points (.mk c w pts ll ul (some t'') ur))
                (p :: all_points (.mk c w pts ll ul (some s) ur)) := by
              rw [List.perm_iff_count]
              intro a
              have h := hperm''.count_eq a
              simp only [all_points, opt_all_points, List.count_append, List.count_cons,
                List.count_nil] at h ⊢
              by_cases hpa : a = p <;> simp [hpa] at h ⊢ <;> omega
            refine ⟨.mk c w pts ll ul (some t'') ur, ?_, rfl, rfl, ?_, ?_, ?_, hperm⟩
            · exact add_point_go_step_lr_some c w pts s _ _ _ p n t''
                (by rw [_is_in_box_mk]; exact ⟨hin1, hin2, hin3, hin4⟩) hw hx hy hgo
            · simp only [wf_tree, opt_wf]
              exact ⟨hwll, hwul, ⟨htc.trans hsc, htw.trans hsw, hwf''⟩, hwur⟩
            · simp only [box_inv, opt_box_inv]
              refine ⟨?_, hbll, hbul, hbox'', hbur⟩
              intro q hq
              rcases List.mem_cons.mp (hperm.mem_iff.mp hq) with rfl | hq'
              · rw [_is_in_box_mk]
                exact ⟨hin1, hin2, hin3, hin4⟩
              · have := hb0 q hq'
                rw [_is_in_box_mk] at this
                rw [_is_in_box_mk]
                exact this
            · simp only [route_inv, opt_route]
              refine ⟨hrll, hrul, ⟨?_, hroute''⟩, hrur⟩
              intro q hq
              rcases List.mem_cons.mp (hperm''.mem_iff.mp hq) with rfl | hq'
              · exact ⟨not_lt.mp hx, hy⟩
              · exact hsall q hq'
          | none =>
            subst hlrc
            have hsin : _is_in_box (.mk ⟨c.x + w/2, c.y - w/2⟩ (w/2) [] none none none none) p := by
              rw [_is_in_box_mk]
              refine ⟨by simp; linarith, by simp; linarith, by simp; linarith, by simp; linarith⟩
            obtain ⟨t'', hgo, htc, htw, hwf'', hbox'', hroute'', hperm''⟩ :=
              ih (.mk ⟨c.x + w/2, c.y - w/2⟩ (w/2) [] none none none none) p
                (by simp only [QuadTree.width]; exact hfuel2)
                (wf_tree_leaf _ _ _) (box_inv_empty _ _) (route_inv_leaf _ _ _) hsin
            have hperm : List.Perm (all_points (.mk c w pts ll ul (some t'') ur))
                (p :: all_points (.mk c w pts ll ul none ur)) := by
              rw [List.perm_iff_count]
              intro a
              have h := hperm''.count_eq a
              simp only [all_points, opt_all_points, List.count_append, List.count_cons,
                List.count_nil] at h ⊢
              by_cases hpa : a = p <;> simp [hpa] at h ⊢ <;> omega
            refine ⟨.mk c w pts ll ul (some t'') ur, ?_, rfl, rfl, ?_, ?_, ?_, hperm⟩
            · exact add_point_go_step_lr_none c w pts _ _ _ p n t''
                (by rw [_is_in_box_mk]; exact ⟨hin1, hin2, hin3, hin4⟩) hw hx hy hgo
            · simp only [wf_tree, opt_wf]
              exact ⟨hwll, hwul, ⟨htc, htw, hwf''⟩, hwur⟩
            · simp only [box_inv, opt_box_inv]
              refine ⟨?_, hbll, hbul, hbox'', hbur⟩
              intro q hq
              rcases List.mem_cons.mp (hperm.mem_iff.mp hq) with rfl | hq'
              · rw [_is_in_box_mk]
                exact ⟨hin1, hin2, hin3, hin4⟩
              · have := hb0 q hq'
                rw [_is_in_box_mk] at this
                rw [_is_in_box_mk]
                exact this
            · simp only [route_inv, opt_route]
              refine ⟨hrll, hrul, ⟨?_, hroute''⟩, hrur⟩
              intro q hq
              rcases List.mem_cons.mp (hperm''.mem_iff.mp hq) with rfl | hq'
              · exact ⟨not_lt.mp hx, hy⟩
              · exact absurd hq' (by simp [all_points, opt_all_points])
        · -- upper-right
          cases hurc : ur with
          | some s =>
            subst hurc
            simp only [opt_wf] at hwur
            obtain ⟨hsc, hsw, hswf⟩ := hwur
            simp only [opt_box_inv] at hbur
            simp only [opt_route] at hrur
            obtain ⟨hsall, hsroute⟩ := hrur
            have hsin : _is_in_box s p := by
              unfold _is_in_box
              rw [hsc, hsw]
              refine ⟨by simp; linarith, by simp; linarith, by simp; linarith, by simp; linarith⟩
            obtain ⟨t'', hgo, htc, htw, hwf'', hbox'', hroute'', hperm''⟩ :=
              ih s p (by rw [hsw]; exact hfuel2) hswf hbur hsroute hsin
            have hperm : List.Perm (all_points (.mk c w pts ll ul lr (some t'')))
                (p :: all_points (.mk c w pts ll ul lr (some s))) := by
              rw [List.perm_iff_count]
              intro a
              have h := hperm''.count_eq a
              simp only [all_points, opt_all_points, List.count_append, List.count_cons,
                List.count_nil] at h ⊢
              by_cases hpa : a = p <;> simp [hpa] at h ⊢ <;> omega
            refine ⟨.mk c w pts ll ul lr (some t''), ?_, rfl, rfl, ?_, ?_, ?_, hperm⟩
            · exact add_point_go_step_ur_some c w pts s _ _ _ p n t''
                (by rw [_is_in_box_mk]; exact ⟨hin1, hin2, hin3, hin4⟩) hw hx hy hgo
            · simp only [wf_tree, opt_wf]
              exact ⟨hwll, hwul, hwlr, ⟨htc.trans hsc, htw.trans hsw, hwf''⟩⟩
            · simp only [box_inv, opt_box_inv]
              refine ⟨?_, hbll, hbul, hblr, hbox''⟩
              intro q hq
              rcases List.mem_cons.mp (hperm.mem_iff.mp hq) with rfl | hq'
              · rw [_is_in_box_mk]
                exact ⟨hin1, hin2, hin3, hin4⟩
              · have := hb0 q hq'
                rw [_is_in_box_mk] at this
                rw [_is_in_box_mk]
                exact this
            · simp only [route_inv, opt_route]
              refine ⟨hrll, hrul, hrlr, ⟨?_, hroute''⟩⟩
              intro q hq
              rcases List.mem_cons.mp (hperm''.mem_iff.mp hq) with rfl | hq'
              · exact ⟨not_lt.mp hx, not_lt.mp hy⟩
              · exact hsall q hq'
          | none =>
            subst hurc
            have hsin : _is_in_box (.mk ⟨c.x + w/2, c.y + w/2⟩ (w/2) [] none none none none) p := by
              rw [_is_in_box_mk]
              refine ⟨by simp; linarith, by simp; linarith, by simp; linarith, by simp; linarith⟩
            obtain ⟨t'', hgo, htc, htw, hwf'', hbox'', hroute'', hperm''⟩ :=
              ih (.mk ⟨c.x + w/2, c.y + w/2⟩ (w/2) [] none none none none) p
                (by simp only [QuadTree.width]; exact hfuel2)
                (wf_tree_leaf _ _ _) (box_inv_empty _ _) (route_inv_leaf _ _ _) hsin
            have hperm : List.Perm (all_points (.mk c w pts ll ul lr (some t'')))
                (p :: all_points (.mk c w pts ll ul lr none)) := by
              rw [List.perm_iff_count]
              intro a
              have h := hperm''.count_eq a
              simp only [all_points, opt_all_points, List.count_append, List.count_cons,
                List.count_nil] at h ⊢
              by_cases hpa : a = p <;> simp [hpa] at h ⊢ <;> omega
            refine ⟨.mk c w pts ll ul lr (some t''), ?_, rfl, rfl, ?_, ?_, ?_, hperm⟩
            · exact add_point_go_step_ur_none c w pts _ _ _ p n t''
                (by rw [_is_in_box_mk]; exact ⟨hin1, hin2, hin3, hin4⟩) hw hx hy hgo
            · simp only [wf_tree, opt_wf]
              exact ⟨hwll, hwul, hwlr, ⟨htc, htw, hwf''⟩⟩
            · simp only [box_inv, opt_box_inv]
              refine ⟨?_, hbll, hbul, hblr, hbox''⟩
              intro q hq
              rcases List.mem_cons.mp (hperm.mem_iff.mp hq) with rfl | hq'
              · rw [_is_in_box_mk]
                exact ⟨hin1, hin2, hin3, hin4⟩
              · have := hb0 q hq'
                rw [_is_in_box_mk] at this
                rw [_is_in_box_mk]
                exact this
            · simp only [route_inv, opt_route]
              refine ⟨hrll, hrul, hrlr, ⟨?_, hroute''⟩⟩
              intro q hq
              rcases List.mem_cons.mp (hperm''.mem_iff.mp hq) with rfl | hq'
              · exact ⟨not_lt.mp hx, not_lt.mp hy⟩
              · exact absurd hq' (by simp [all_points, opt_all_points])

theorem _is_in_box_congr {t t' : QuadTree} (hc : t'.center = t.center)
    (hw : t'.width = t.width) (q : Point) : _is_in_box t' q ↔ _is_in_box t q := by
  unfold _is_in_box
  rw [hc, hw]

/-- `add_point` on a well-formed invariant-satisfying tree: a contained
point is inserted without any assertion failure, the invariants are
preserved, and exactly the new point joins the stored collection. -/
theorem add_point_spec (t : QuadTree) (p : Point)
    (hwf : wf_tree t) (hbox : box_inv t) (hroute : route_inv t) (hin : _is_in_box t p) :
    ∃ t', add_point t p = .ok t' ∧
      t'.center = t.center ∧ t'.width = t.width ∧
      wf_tree t' ∧ box_inv t' ∧ route_inv t' ∧
      List.Perm (all_points t') (p :: all_points t) := by
  unfold add_point
  exact add_point_go_spec (fuel_for t.width) t p le_rfl hwf hbox hroute hin

/-- Folding `add_point` over a list of contained points succeeds and adds
exactly those points. -/
theorem add_all_spec :
    ∀ (ps : List Point) (t : QuadTree),
      wf_tree t → box_inv t → route_inv t → (∀ q ∈ ps, _is_in_box t q) →
      ∃ t', add_all t ps = .ok t' ∧
        t'.center = t.center ∧ t'.width = t.width ∧
        wf_tree t' ∧ box_inv t' ∧ route_inv t' ∧
        List.Perm (all_points t') (ps ++ all_points t) := by
  intro ps
  induction ps with
  | nil =>
    intro t hwf hbox hroute _
    exact ⟨t, rfl, rfl, rfl, hwf, hbox, hroute, by simp⟩
  | cons p ps ih =>
    intro t hwf hbox hroute hins
    obtain ⟨t1, hstep, hc1, hw1, hwf1, hbox1, hroute1, hperm1⟩ :=
      add_point_spec t p hwf hbox hroute (hins p (List.mem_cons_self p ps))
    obtain ⟨t2, hall, hc2, hw2, hwf2, hbox2, hroute2, hperm2⟩ :=
      ih t1 hwf1 hbox1 hroute1
        (fun q hq => ((_is_in_box_congr hc1 hw1 q).mpr (hins q (List.mem_cons_of_mem p hq))))
    refine ⟨t2, ?_, hc2.trans hc1, hw2.trans hw1, hwf2, hbox2, hroute2, ?_⟩
    · simp only [add_all, hstep]
      exact hall
    · have h3 : List.Perm (ps ++ all_points t1) (ps ++ (p :: all_points t)) :=
        hperm1.append_left ps
      have h4 : List.Perm (ps ++ (p :: all_points t)) (p :: (ps ++ all_points t)) :=
        List.perm_middle
      have := (hperm2.trans h3).trans h4
      rw [List.cons_append]
      exact this

theorem foldl_min_le (f : Point → ℚ) :
    ∀ (ps : List Point) (a : ℚ),
      (ps.foldl (fun m q => min m (f q)) a ≤ a) ∧
      (∀ q ∈ ps, ps.foldl (fun m q => min m (f q)) a ≤ f q) := by
  intro ps
  induction ps with
  | nil => simp
  | cons r rs ih =>
    intro a
    constructor
    · simp only [List.foldl_cons]
      exact le_trans (ih (min a (f r))).1 (min_le_left _ _)
    · intro q hq
      rcases List.mem_cons.mp hq with rfl | hq'
      · simp only [List.foldl_cons]
        exact le_trans (ih _).1 (min_le_right _ _)
      · simp only [List.foldl_cons]
        exact (ih _).2 q hq'

theorem le_foldl_max (f : Point → ℚ) :
    ∀ (ps : List Point) (a : ℚ),
      (a ≤ ps.foldl (fun m q => max m (f q)) a) ∧
      (∀ q ∈ ps, f q ≤ ps.foldl (fun m q => max m (f q)) a) := by
  intro ps
  induction ps with
  | nil => simp
  | cons r rs ih =>
    intro a
    constructor
    · simp only [List.foldl_cons]
      exact le_trans (le_max_left _ _) (ih (max a (f r))).1
    · intro q hq
      rcases List.mem_cons.mp hq with rfl | hq'
      · simp only [List.foldl_cons]
        exact le_trans (le_max_right _ _) (ih _).1
      · simp only [List.foldl_cons]
        exact (ih _).2 q hq'

/-- `make_tree` on a non-empty input: it succeeds (no assertion fires),
produces the padded root described in the source, and stores exactly the
input points. -/
theorem make_tree_spec (p : Point) (ps : List Point) :
    ∃ t, make_tree (p :: ps) = .ok t ∧
      t.center = ⟨(ps.foldl (fun m q => max m q.x) p.x + ps.foldl (fun m q => min m q.x) p.x)/2,
                  (ps.foldl (fun m q => max m q.y) p.y + ps.foldl (fun m q => min m q.y) p.y)/2⟩ ∧
      t.width = max (ps.foldl (fun m q => max m q.x) p.x - ps.foldl (fun m q => min m q.x) p.x)
                    (ps.foldl (fun m q => max m q.y) p.y - ps.foldl (fun m q => min m q.y) p.y)
                  / 2 + 1/1000 ∧
      wf_tree t ∧ box_inv t ∧ route_inv t ∧
      List.Perm (all_points t) (p :: ps) := by
  set xmin := ps.foldl (fun m q => min m q.x) p.x with hxmin
  set xmax := ps.foldl (fun m q => max m q.x) p.x with hxmax
  set ymin := ps.foldl (fun m q => min m q.y) p.y with hymin
  set ymax := ps.foldl (fun m q => max m q.y) p.y with hymax
  set c : Point := ⟨(xmax + xmin)/2, (ymax + ymin)/2⟩ with hc
  set w : ℚ := max (xmax - xmin) (ymax - ymin) / 2 + 1/1000 with hw
  have hbounds : ∀ q ∈ p :: ps, xmin ≤ q.x ∧ q.x ≤ xmax ∧ ymin ≤ q.y ∧ q.y ≤ ymax := by
    intro q hq
    rcases List.mem_cons.mp hq with rfl | hq'
    · exact ⟨(foldl_min_le (fun r => r.x) ps q.x).1, (le_foldl_max (fun r => r.x) ps q.x).1,
        (foldl_min_le (fun r => r.y) ps q.y).1, (le_foldl_max (fun r => r.y) ps q.y).1⟩
    · exact ⟨(foldl_min_le (fun r => r.x) ps p.x).2 q hq',
        (le_foldl_max (fun r => r.x) ps p.x).2 q hq',
        (foldl_min_le (fun r => r.y) ps p.y).2 q hq',
        (le_foldl_max (fun r => r.y) ps p.y).2 q hq'⟩
  have hmm : xmin ≤ xmax := le_trans (hbounds p (List.mem_cons_self p ps)).1
    (hbounds p (List.mem_cons_self p ps)).2.1
  have hmm' : ymin ≤ ymax := le_trans (hbounds p (List.mem_cons_self p ps)).2.2.1
    (hbounds p (List.mem_cons_self p ps)).2.2.2
  have hcont : ∀ q ∈ p :: ps, _is_in_box (.mk c w [] none none none none) q := by
    intro q hq
    obtain ⟨b1, b2, b3, b4⟩ := hbounds q hq
    rw [_is_in_box_mk]
    have m1 : xmax - xmin ≤ max (xmax - xmin) (ymax - ymin) := le_max_left _ _
    have m2 : ymax - ymin ≤ max (xmax - xmin) (ymax - ymin) := le_max_right _ _
    refine ⟨?_, ?_, ?_, ?_⟩
    · simp only [hc, hw]
      linarith
    · simp only [hc, hw]
      linarith
    · simp only [hc, hw]
      linarith
    · simp only [hc, hw]
      linarith
  obtain ⟨t, hall, hcen, hwid, hwf, hbox, hroute, hperm⟩ :=
    add_all_spec (p :: ps) (.mk c w [] none none none none)
      (wf_tree_leaf _ _ _) (box_inv_empty _ _) (route_inv_leaf _ _ _) hcont
  refine ⟨t, ?_, hcen, hwid, hwf, hbox, hroute, ?_⟩
  · simp only [make_tree]
    exact hall
  · have : all_points (QuadTree.mk c w [] none none none none) = [] := by
      simp [all_points, opt_all_points]
    rw [this, List.append_nil] at hperm
    exact hperm

/-! ## The interpolation formula over the reals -/

theorem quadratic_root_between (a b T x1 x2 : ℝ) (ha : a ≠ 0)
    (h1 : a * x1^2 + b * x1 < T) (h2 : T < a * x2^2 + b * x2) (h12 : x1 < x2) :
    x1 < (Real.sqrt (4*a*T + b^2) - b) / (2*a) ∧
    (Real.sqrt (4*a*T + b^2) - b) / (2*a) < x2 := by
  have hslope : 0 < a * (x1 + x2) + b := by nlinarith
  rcases lt_or_gt_of_ne ha with hneg | hpos
  · have hD2 : (2*a*x2 + b)^2 < 4*a*T + b^2 := by nlinarith
    have hDnn : 0 ≤ 4*a*T + b^2 := le_trans (sq_nonneg _) (le_of_lt hD2)
    have hs2 : Real.sqrt (4*a*T + b^2) ^ 2 = 4*a*T + b^2 := Real.sq_sqrt hDnn
    have hs0 : 0 ≤ Real.sqrt (4*a*T + b^2) := Real.sqrt_nonneg _
    set s := Real.sqrt (4*a*T + b^2) with hsdef
    have hx1b : 0 < 2*a*x1 + b := by nlinarith
    have hD1 : 4*a*T + b^2 < (2*a*x1 + b)^2 := by nlinarith
    have h1' : s < 2*a*x1 + b := by nlinarith
    have h2' : 2*a*x2 + b < s := by nlinarith
    constructor
    · rw [lt_div_iff_of_neg (by linarith : 2*a < 0)]
      linarith
    · rw [div_lt_iff_of_neg (by linarith : 2*a < 0)]
      linarith
  · have hD1 : (2*a*x1 + b)^2 < 4*a*T + b^2 := by nlinarith
    have hDnn : 0 ≤ 4*a*T + b^2 := le_trans (sq_nonneg _) (le_of_lt hD1)
    have hs2 : Real.sqrt (4*a*T + b^2) ^ 2 = 4*a*T + b^2 := Real.sq_sqrt hDnn
    have hs0 : 0 ≤ Real.sqrt (4*a*T + b^2) := Real.sqrt_nonneg _
    set s := Real.sqrt (4*a*T + b^2) with hsdef
    have hx2b : 0 < 2*a*x2 + b := by nlinarith
    have hD2 : 4*a*T + b^2 < (2*a*x2 + b)^2 := by nlinarith
    have h1' : 2*a*x1 + b < s := by nlinarith
    have h2' : s < 2*a*x2 + b := by nlinarith
    constructor
    · rw [lt_div_iff₀ (by linarith : 0 < 2*a)]
      linarith
    · rw [div_lt_iff₀ (by linarith : 0 < 2*a)]
      linarith

theorem quad_interp_real_between (x1 y1 x2 y2 T : ℝ)
    (hx1 : 0 ≤ x1) (hx12 : x1 < x2) (hy1 : 0 ≤ y1) (hyT : y1 < T) (hTy : T < y2)
    (ha : x1 = 0 ∨ x1 * y2 ≠ x2 * y1) :
    x1 < quad_interp_real x1 y1 x2 y2 T ∧ quad_interp_real x1 y1 x2 y2 T < x2 := by
  by_cases h0 : x1 = 0
  · rw [quad_interp_real, if_pos h0]
    subst h0
    have hy2 : 0 < y2 := by linarith
    have hT : 0 < T := by linarith
    have h1 : 0 < T / y2 := div_pos hT hy2
    have h2 : T / y2 < 1 := (div_lt_one hy2).mpr hTy
    have hs1 : 0 < Real.sqrt (T / y2) := Real.sqrt_pos.mpr h1
    have hs2 : Real.sqrt (T / y2) < 1 := by
      have := Real.sqrt_lt_sqrt (le_of_lt h1) h2
      simpa using this
    constructor
    · exact mul_pos (by linarith) hs1
    · calc x2 * Real.sqrt (T / y2) < x2 * 1 :=
          mul_lt_mul_of_pos_left hs2 (by linarith)
        _ = x2 := mul_one x2
  · have hne := ha.resolve_left h0
    have hx1pos : 0 < x1 := lt_of_le_of_ne hx1 (Ne.symm h0)
    rw [quad_interp_real, if_neg h0]
    simp only []
    have hdpos : 0 < x1 * x2 * (x2 - x1) :=
      mul_pos (mul_pos hx1pos (by linarith)) (by linarith)
    have ha0 : (x1 * y2 - x2 * y1) / (x1 * x2 * (x2 - x1)) ≠ 0 :=
      div_ne_zero (sub_ne_zero.mpr hne) (ne_of_gt hdpos)
    have hfit1 : (x1 * y2 - x2 * y1) / (x1 * x2 * (x2 - x1)) * x1^2 +
        (x2^2 * y1 - x1^2 * y2) / (x1 * x2 * (x2 - x1)) * x1 = y1 := by
      field_simp
      ring
    have hfit2 : (x1 * y2 - x2 * y1) / (x1 * x2 * (x2 - x1)) * x2^2 +
        (x2^2 * y1 - x1^2 * y2) / (x1 * x2 * (x2 - x1)) * x2 = y2 := by
      field_simp
      ring
    exact quadratic_root_between _ _ T x1 x2 ha0
      (by rw [hfit1]; exact hyT) (by rw [hfit2]; exact hTy) hx12

theorem quadratic_interpolate_zero_div (msqrt : ℚ → ℚ) (x1 y1 x2 y2 T : ℚ)
    (h1 : 0 < x1) (h2 : x1 < x2) (h3 : 0 ≤ y1) (h4 : y1 ≤ y2)
    (hcol : x1 * y2 = x2 * y1) :
    _quadratic_interpolate msqrt x1 y1 x2 y2 T = .error "ZeroDivisionError" := by
  unfold _quadratic_interpolate
  have hA : (x1 * y2 - x2 * y1) / (x1 * x2 * (x2 - x1)) = 0 := by
    rw [sub_eq_zero_of_eq hcol, zero_div]
  rw [if_neg (not_not_intro h2), if_neg (not_not_intro h4),
    if_neg (not_not_intro (le_of_lt h1)), if_neg (not_not_intro h3),
    if_neg (ne_of_gt h1)]
  simp [hA]
  positivity

/-! ## The radius solver -/

theorem rat_sqrt_two : rat_sqrt 2 = 1 := by
  unfold rat_sqrt
  have h1 : Nat.sqrt 2 < 2 := Nat.sqrt_lt.mpr (by norm_num)
  have h2 : 1 ≤ Nat.sqrt 2 := Nat.le_sqrt.mpr (by norm_num)
  have h3 : Nat.sqrt 2 = 1 := by omega
  norm_num
  rw [show Int.toNat 2 = 2 from rfl, h3]

theorem newton_loop_exit (msqrt : ℚ → ℚ) (tree : QuadTree) (cs : List Point)
    (tc : ℤ) (fuel : ℕ) (lr : ℚ) (lc : ℤ) (hr : ℚ) (hc : ℤ)
    (hout : ¬ hr - lr > 1/1000000) :
    newton_loop msqrt tree cs tc (fuel + 1) lr lc hr hc = .ok (hr, .count hc) := by
  rw [newton_loop]
  rw [if_pos hout]

theorem newton_loop_count (msqrt : ℚ → ℚ) (tree : QuadTree) (cs : List Point) (tc : ℤ) :
    ∀ (fuel : ℕ) (lr : ℚ) (lc : ℤ) (hr : ℚ) (hc : ℤ) (r : ℚ) (res : NewtonRet),
      newton_loop msqrt tree cs tc fuel lr lc hr hc = .ok (r, res) →
      ∃ n, res = .count n := by
  intro fuel
  induction fuel with
  | zero =>
    intro lr lc hr hc r res h
    rw [newton_loop] at h
    exact absurd h (by simp)
  | succ fuel ih =>
    intro lr lc hr hc r res h
    rw [newton_loop] at h
    by_cases h1 : ¬ hr - lr > 1/1000000
    · rw [if_pos h1] at h
      simp only [Except.ok.injEq, Prod.mk.injEq] at h
      exact ⟨hc, h.2.symm⟩
    · rw [if_neg h1] at h
      cases hqi : _quadratic_interpolate msqrt lr (lc : ℚ) hr (hc : ℚ) (tc : ℚ) with
      | error e =>
        rw [hqi] at h
        simp at h
      | ok mid =>
        rw [hqi] at h
        simp only [] at h
        by_cases h2 : ¬ mid < hr
        · rw [if_pos h2] at h
          simp at h
        · rw [if_neg h2] at h
          by_cases h3 : ¬ mid > lr
          · rw [if_pos h3] at h
            simp at h
          · rw [if_neg h3] at h
            by_cases h4 : |((((near_points tree cs mid).length : ℤ) : ℚ)) - (tc : ℚ)| < 1/2
            · rw [if_pos h4] at h
              simp only [Except.ok.injEq, Prod.mk.injEq] at h
              exact ⟨_, h.2.symm⟩
            · rw [if_neg h4] at h
              by_cases h5 : (((near_points tree cs mid).length : ℤ)) < tc
              · rw [if_pos h5] at h
                exact ih _ _ _ _ _ _ h
              · rw [if_neg h5] at h
                exact ih _ _ _ _ _ _ h

/-- Input points for the hard-failure counterexample to the solver's
robustness: one point at the sole centroid, two points at a common
distance from it. -/
def ptsZ : List Point := [⟨0,0⟩, ⟨3,4⟩, ⟨-3,-4⟩]

/-- The tree `make_tree ptsZ` builds (checked below): root of half-width
`max(6,8)/2 + 0.001` at the origin, with two leaf children. -/
def treeZ : QuadTree :=
  .mk ⟨0,0⟩ (4001/1000) []
    (some (.mk ⟨-4001/2000, -4001/2000⟩ (4001/2000) [⟨-3,-4⟩] none none none none))
    none none
    (some (.mk ⟨4001/2000, 4001/2000⟩ (4001/2000) [⟨0,0⟩, ⟨3,4⟩] none none none none))

/-! ## Concrete data for the spec's scenarios and counterexamples -/

/-- Shorthand for building concrete points. -/
def pq (a b : ℚ) : Point := ⟨a, b⟩

/-- The input of the spec's newton-search scenario:
{(0,0), (−8,−8), (8,8), (0,8), (8,0), (0,0), (4,4)} with the duplicate. -/
def pts7 : List Point := [⟨0,0⟩, ⟨-8,-8⟩, ⟨8,8⟩, ⟨0,8⟩, ⟨8,0⟩, ⟨0,0⟩, ⟨4,4⟩]

/-- The lower-left subtree that `make_tree pts7` builds. -/
def nLL : QuadTree := .mk (pq (-(8001/2000)) (-(8001/2000))) (8001/2000) []
  (some (.mk (pq (-(24003/4000)) (-(24003/4000))) (8001/4000) [pq (-8) (-8)] none none none none))
  none none none

/-- The upper-right grandchild bucket of `make_tree pts7`, by its point
list. -/
def nUR (l : List Point) : QuadTree := .mk (pq (8001/4000) (8001/4000)) (8001/4000) l none none none none

def t7_0 : QuadTree := .mk (pq 0 0) (8001/1000) [] none none none none
def t7_1 : QuadTree := .mk (pq 0 0) (8001/1000) [] none none none
  (some (.mk (pq (8001/2000) (8001/2000)) (8001/2000) [] (some (nUR [pq 0 0])) none none none))
def t7_2 : QuadTree := .mk (pq 0 0) (8001/1000) [] (some nLL) none none
  (some (.mk (pq (8001/2000) (8001/2000)) (8001/2000) [] (some (nUR [pq 0 0])) none none none))
def t7_3 : QuadTree := .mk (pq 0 0) (8001/1000) [] (some nLL) none none
  (some (.mk (pq (8001/2000) (8001/2000)) (8001/2000) [] (some (nUR [pq 0 0])) none none
    (some (.mk (pq (24003/4000) (24003/4000)) (8001/4000) [pq 8 8] none none none none))))
def t7_4 : QuadTree := .mk (pq 0 0) (8001/1000) [] (some nLL) none none
  (some (.mk (pq (8001/2000) (8001/2000)) (8001/2000) [] (some (nUR [pq 0 0]))
    (some (.mk (pq (8001/4000) (24003/4000)) (8001/4000) [pq 0 8] none none none none)) none
    (some (.mk (pq (24003/4000) (24003/4000)) (8001/4000) [pq 8 8] none none none none))))
def t7_5 : QuadTree := .mk (pq 0 0) (8001/1000) [] (some nLL) none none
  (some (.mk (pq (8001/2000) (8001/2000)) (8001/2000) [] (some (nUR [pq 0 0]))
    (some (.mk (pq (8001/4000) (24003/4000)) (8001/4000) [pq 0 8] none none none none))
    (some (.mk (pq (24003/4000) (8001/4000)) (8001/4000) [pq 8 0] none none none none))
    (some (.mk (pq (24003/4000) (24003/4000)) (8001/4000) [pq 8 8] none none none none))))
def t7_6 : QuadTree := .mk (pq 0 0) (8001/1000) [] (some nLL) none none
  (some (.mk (pq (8001/2000) (8001/2000)) (8001/2000) [] (some (nUR [pq 0 0, pq 0 0]))
    (some (.mk (pq (8001/4000) (24003/4000)) (8001/4000) [pq 0 8] none none none none))
    (some (.mk (pq (24003/4000) (8001/4000)) (8001/4000) [pq 8 0] none none none none))
    (some (.mk (pq (24003/4000) (24003/4000)) (8001/4000) [pq 8 8] none none none none))))

/-- The tree `make_tree pts7` builds (proved in `make_tree_pts7`). -/
def tree7 : QuadTree := .mk (pq 0 0) (8001/1000) [] (some nLL) none none
  (some (.mk (pq (8001/2000) (8001/2000)) (8001/2000) [] (some (nUR [pq 0 0, pq 0 0, pq 4 4]))
    (some (.mk (pq (8001/4000) (24003/4000)) (8001/4000) [pq 0 8] none none none none))
    (some (.mk (pq (24003/4000) (8001/4000)) (8001/4000) [pq 8 0] none none none none))
    (some (.mk (pq (24003/4000) (24003/4000)) (8001/4000) [pq 8 8] none none none none))))

theorem tree7_step1 : add_point t7_0 ⟨0,0⟩ = .ok t7_1 := by
  norm_num [add_point, add_point_go, fuel_for_le, fuel_for_gt, _is_in_box, _MAX_TREE_RESOLUTION,
    QuadTree.center, QuadTree.width, t7_0, t7_1, nUR, pq]

theorem tree7_step2 : add_point t7_1 ⟨-8,-8⟩ = .ok t7_2 := by
  norm_num [add_point, add_point_go, fuel_for_le, fuel_for_gt, _is_in_box, _MAX_TREE_RESOLUTION,
    QuadTree.center, QuadTree.width, t7_1, t7_2, nLL, nUR, pq]

theorem tree7_step3 : add_point t7_2 ⟨8,8⟩ = .ok t7_3 := by
  norm_num [add_point, add_point_go, fuel_for_le, fuel_for_gt, _is_in_box, _MAX_TREE_RESOLUTION,
    QuadTree.center, QuadTree.width, t7_2, t7_3, nLL, nUR, pq]

theorem tree7_step4 : add_point t7_3 ⟨0,8⟩ = .ok t7_4 := by
  norm_num [add_point, add_point_go, fuel_for_le, fuel_for_gt, _is_in_box, _MAX_TREE_RESOLUTION,
    QuadTree.center, QuadTree.width, t7_3, t7_4, nLL, nUR, pq]

theorem tree7_step5 : add_point t7_4 ⟨8,0⟩ = .ok t7_5 := by
  norm_num [add_point, add_point_go, fuel_for_le, fuel_for_gt, _is_in_box, _MAX_TREE_RESOLUTION,
    QuadTree.center, QuadTree.width, t7_4, t7_5, nLL, nUR, pq]

theorem tree7_step6 : add_point t7_5 ⟨0,0⟩ = .ok t7_6 := by
  norm_num [add_point, add_point_go, fuel_for_le, fuel_for_gt, _is_in_box, _MAX_TREE_RESOLUTION,
    QuadTree.center, QuadTree.width, t7_5, t7_6, nLL, nUR, pq]

theorem tree7_step7 : add_point t7_6 ⟨4,4⟩ = .ok tree7 := by
  norm_num [add_point, add_point_go, fuel_for_le, fuel_for_gt, _is_in_box, _MAX_TREE_RESOLUTION,
    QuadTree.center, QuadTree.width, t7_6, tree7, nLL, nUR, pq]

/-- Scenario 4's tree, computed: `make_tree pts7` succeeds with `tree7`. -/
theorem make_tree_pts7 : make_tree pts7 = .ok tree7 := by
  have root : make_tree pts7 = add_all t7_0 pts7 := by
    norm_num [make_tree, pts7, t7_0, pq]
  rw [root]
  simp only [pts7, add_all, tree7_step1, tree7_step2, tree7_step3, tree7_step4,
    tree7_step5, tree7_step6, tree7_step7]

/-- The radius query of scenario 4: exactly three points lie within 5.5 of
(4,5). -/
theorem near_points_tree7 : near_points tree7 [⟨4,5⟩] (11/2) = [⟨4,4⟩, ⟨0,8⟩, ⟨8,8⟩] := by
  norm_num [near_points, points_in_radius, points_in_box, opt_points_in_box, set_add,
    tree7, nLL, nUR, pq, QuadTree.center, QuadTree.width, List.filter]

/-- The tree built by inserting (0,1) into an empty root centered at the
origin with half-width 8: the inserted point lands in the lower-left
grandchild of the upper-right child, at x-coordinate exactly equal to the
root's center x. -/
def tcex : QuadTree :=
  .mk ⟨0,0⟩ 8 [] none none none
    (some (.mk ⟨4,4⟩ 4 [] (some (.mk ⟨2,2⟩ 2 [⟨0,1⟩] none none none none)) none none none))

theorem tcex_build : add_point (.mk ⟨0,0⟩ 8 [] none none none none) ⟨0,1⟩ = .ok tcex := by
  norm_num [add_point, add_point_go, fuel_for_le, fuel_for_gt, _is_in_box, _MAX_TREE_RESOLUTION,
    QuadTree.center, QuadTree.width, tcex]

theorem tcex_stores : (⟨0,1⟩ : Point) ∈ all_points tcex := by
  simp [tcex, all_points, opt_all_points]

theorem tcex_near_zero : near_points tcex [⟨0,1⟩] 0 = [] := by
  norm_num [near_points, points_in_radius, points_in_box, opt_points_in_box, set_add,
    tcex, QuadTree.center, QuadTree.width, List.filter]

theorem tcex_box_empty : points_in_box tcex ⟨-1,-1⟩ ⟨0,2⟩ = [] := by
  norm_num [points_in_box, opt_points_in_box, tcex, List.filter]

def tZ_0 : QuadTree := .mk ⟨0,0⟩ (4001/1000) [] none none none none
def tZ_1 : QuadTree := .mk ⟨0,0⟩ (4001/1000) [] none none none
  (some (.mk ⟨4001/2000, 4001/2000⟩ (4001/2000) [⟨0,0⟩] none none none none))
def tZ_2 : QuadTree := .mk ⟨0,0⟩ (4001/1000) [] none none none
  (some (.mk ⟨4001/2000, 4001/2000⟩ (4001/2000) [⟨0,0⟩, ⟨3,4⟩] none none none none))

theorem treeZ_step1 : add_point tZ_0 ⟨0,0⟩ = .ok tZ_1 := by
  norm_num [add_point, add_point_go, fuel_for_le, fuel_for_gt, _is_in_box, _MAX_TREE_RESOLUTION,
    QuadTree.center, QuadTree.width, tZ_0, tZ_1]

theorem treeZ_step2 : add_point tZ_1 ⟨3,4⟩ = .ok tZ_2 := by
  norm_num [add_point, add_point_go, fuel_for_le, fuel_for_gt, _is_in_box, _MAX_TREE_RESOLUTION,
    QuadTree.center, QuadTree.width, tZ_1, tZ_2]

theorem treeZ_step3 : add_point tZ_2 ⟨-3,-4⟩ = .ok treeZ := by
  norm_num [add_point, add_point_go, fuel_for_le, fuel_for_gt, _is_in_box, _MAX_TREE_RESOLUTION,
    QuadTree.center, QuadTree.width, tZ_2, treeZ]

theorem make_tree_ptsZ : make_tree ptsZ = .ok treeZ := by
  have root : make_tree ptsZ = add_all tZ_0 ptsZ := by
    norm_num [make_tree, ptsZ, tZ_0]
  rw [root]
  simp only [ptsZ, add_all, treeZ_step1, treeZ_step2, treeZ_step3]

theorem near_treeZ : near_points treeZ [⟨0,0⟩] (4001/3000) = [⟨0,0⟩] := by
  norm_num [near_points, points_in_radius, points_in_box, opt_points_in_box, set_add,
    treeZ, QuadTree.center, QuadTree.width, List.filter]

theorem pyset_treeZ : py_set (all_points treeZ) = [⟨-3,-4⟩, ⟨0,0⟩, ⟨3,4⟩] := by
  norm_num [py_set, set_add, all_points, opt_all_points, treeZ]

theorem newton_search_hard_failure :
    newton_search rat_sqrt 1 treeZ [⟨0,0⟩] (4001/3000) 2 = .error "ZeroDivisionError" := by
  have hinterp : _quadratic_interpolate rat_sqrt (4001/3000) ((1:ℤ) : ℚ)
      (4001/1000) ((3:ℤ) : ℚ) ((2:ℤ) : ℚ) = .error "ZeroDivisionError" :=
    quadratic_interpolate_zero_div rat_sqrt _ _ _ _ _ (by norm_num) (by norm_num)
      (by norm_num) (by norm_num) (by norm_num)
  rw [newton_search]
  rw [if_neg (by norm_num)]
  simp only [near_treeZ, pyset_treeZ]
  norm_num [max_radius, rat_sqrt_two, treeZ, QuadTree.width]
  rw [newton_loop]
  rw [if_neg (by norm_num)]
  rw [hinterp]

theorem dist_sq_le_zero_iff (p c : Point) :
    (p.x - c.x)^2 + (p.y - c.y)^2 ≤ 0 ↔ p = c := by
  constructor
  · intro h
    have hx : p.x = c.x := by nlinarith [sq_nonneg (p.x - c.x), sq_nonneg (p.y - c.y)]
    have hy : p.y = c.y := by nlinarith [sq_nonneg (p.x - c.x), sq_nonneg (p.y - c.y)]
    cases p
    cases c
    simp_all
  · rintro rfl
    simp

/-! ## Claims -/

/-- C1 (counterexample): the tree `tcex` stores (0,1), yet
`near_points(tcex, [(0,1)], 0)` is empty although (0,1) is
coordinate-equal to the centroid — the circle's bounding box has its upper
corner x-coordinate exactly on the root's center, so the strict pruning
skips the right children.  This falsifies both the exact radius-query
claim and the radius-0 boundary claim as stated. -/
theorem c1_counterexample :
    add_point (.mk ⟨0,0⟩ 8 [] none none none none) ⟨0,1⟩ = .ok tcex ∧
    (⟨0,1⟩ : Point) ∈ all_points tcex ∧
    ((⟨0,1⟩ : Point).x - (⟨0,1⟩ : Point).x)^2 + ((⟨0,1⟩ : Point).y - (⟨0,1⟩ : Point).y)^2 ≤ 0^2 ∧
    near_points tcex [⟨0,1⟩] 0 = [] :=
  ⟨tcex_build, tcex_stores, by norm_num, tcex_near_zero⟩

/-- C1 (amended): `points_in_radius` is always sound (everything yielded
is stored and within the radius by the exact squared-distance test), and
it is exact — and `near_points` at radius 0 yields exactly the stored
points coordinate-equal to some centroid — provided the tree satisfies the
containment and routing invariants and the upper corner of each query
circle's bounding square shares no coordinate with any node center. -/
theorem c1_radius_query_exact :
    (∀ (t : QuadTree) (c : Point) (r : ℚ) (p : Point),
      p ∈ points_in_radius t c r →
      p ∈ all_points t ∧ (p.x - c.x)^2 + (p.y - c.y)^2 ≤ r^2) ∧
    (∀ (t : QuadTree) (c : Point) (r : ℚ),
      box_inv t → route_inv t → 0 ≤ r → avoids_centers ⟨c.x + r, c.y + r⟩ t →
      ∀ p, p ∈ points_in_radius t c r ↔
        (p ∈ all_points t ∧ (p.x - c.x)^2 + (p.y - c.y)^2 ≤ r^2)) ∧
    (∀ (t : QuadTree) (cs : List Point),
      box_inv t → route_inv t → (∀ c ∈ cs, avoids_centers c t) →
      ∀ p, p ∈ near_points t cs 0 ↔ (p ∈ all_points t ∧ p ∈ cs)) := by
  refine ⟨fun t c r p hp => points_in_radius_sound t c r p hp, ?_, ?_⟩
  · intro t c r hbox hroute hr hav p
    exact ⟨fun hp => points_in_radius_sound t c r p hp,
      fun ⟨hm, hd⟩ => points_in_radius_complete t c r p hbox hroute hr hav hm hd⟩
  · intro t cs hbox hroute hav p
    rw [mem_near_points]
    constructor
    · rintro ⟨c, hc, hp⟩
      obtain ⟨hm, hd⟩ := points_in_radius_sound t c 0 p hp
      norm_num at hd
      exact ⟨hm, (dist_sq_le_zero_iff p c).mp hd ▸ hc⟩
    · rintro ⟨hm, hc⟩
      refine ⟨p, hc, ?_⟩
      have hav' : avoids_centers ⟨p.x + 0, p.y + 0⟩ t := by
        have : (⟨p.x + 0, p.y + 0⟩ : Point) = p := by simp
        rw [this]
        exact hav p hc
      exact points_in_radius_complete t p 0 p hbox hroute le_rfl hav' hm (by simp)

/-- C1 witness instance: on `tcex` with centroid (0,1) and radius 1/2
(whose bounding-box corner (1/2, 3/2) avoids every node-center
coordinate), the radius query is exact at the point (0,1). -/
theorem c1_witness :
    (⟨0,1⟩ : Point) ∈ points_in_radius tcex ⟨0,1⟩ (1/2) ↔
      ((⟨0,1⟩ : Point) ∈ all_points tcex ∧
       ((⟨0,1⟩ : Point).x - (⟨0,1⟩ : Point).x)^2 +
       ((⟨0,1⟩ : Point).y - (⟨0,1⟩ : Point).y)^2 ≤ (1/2 : ℚ)^2) :=
  c1_radius_query_exact.2.1 tcex ⟨0,1⟩ (1/2)
    (by norm_num [tcex, box_inv, opt_box_inv, all_points, opt_all_points, _is_in_box,
      QuadTree.center, QuadTree.width])
    (by norm_num [tcex, route_inv, opt_route, all_points, opt_all_points,
      QuadTree.center, QuadTree.width])
    (by norm_num)
    (by norm_num [tcex, avoids_centers, opt_avoids]) ⟨0,1⟩

/-- C2 (counterexample): the closed box [−1,0]×[−1,2] contains the stored
point (0,1) of `tcex`, but `points_in_box` returns nothing: the box's
right edge coincides with the root's center x-coordinate and the strict
`upper_right.x > center.x` pruning skips the right children where points
with x equal to the center are routed. -/
theorem c2_counterexample :
    add_point (.mk ⟨0,0⟩ 8 [] none none none none) ⟨0,1⟩ = .ok tcex ∧
    (⟨0,1⟩ : Point) ∈ all_points tcex ∧
    ((-1:ℚ) ≤ (⟨0,1⟩ : Point).x ∧ (-1:ℚ) ≤ (⟨0,1⟩ : Point).y ∧
     (⟨0,1⟩ : Point).x ≤ (0:ℚ) ∧ (⟨0,1⟩ : Point).y ≤ (2:ℚ)) ∧
    points_in_box tcex ⟨-1,-1⟩ ⟨0,2⟩ = [] :=
  ⟨tcex_build, tcex_stores, by norm_num, tcex_box_empty⟩

/-- C2 (amended): `points_in_box` is always sound, and — under the routing
invariant — exact for every closed query rectangle whose upper-right
corner shares no coordinate with any node center (coincidence of the
lower-left corner with a center is harmless and needs no proviso). -/
theorem c2_box_query_exact :
    (∀ (t : QuadTree) (lo hi p : Point), p ∈ points_in_box t lo hi →
      p ∈ all_points t ∧ lo.x ≤ p.x ∧ lo.y ≤ p.y ∧ p.x ≤ hi.x ∧ p.y ≤ hi.y) ∧
    (∀ (t : QuadTree), route_inv t → ∀ (hi : Point), avoids_centers hi t →
      ∀ (lo p : Point),
        p ∈ points_in_box t lo hi ↔
          (p ∈ all_points t ∧ lo.x ≤ p.x ∧ lo.y ≤ p.y ∧ p.x ≤ hi.x ∧ p.y ≤ hi.y)) := by
  refine ⟨fun t lo hi p hp => points_in_box_sound t lo hi p hp, ?_⟩
  intro t hroute hi hav lo p
  constructor
  · exact points_in_box_sound t lo hi p
  · rintro ⟨hm, h1, h2, h3, h4⟩
    exact points_in_box_complete t hroute hi hav lo p hm h1 h2 h3 h4

/-- C2 witness instance: on `tcex` the box [−1,−1]×[1/2,3/2], whose upper
corner avoids all node-center coordinates, returns exactly the stored
points inside it. -/
theorem c2_witness :
    (⟨0,1⟩ : Point) ∈ points_in_box tcex ⟨-1,-1⟩ ⟨1/2, 3/2⟩ ↔
      ((⟨0,1⟩ : Point) ∈ all_points tcex ∧ (-1:ℚ) ≤ (⟨0,1⟩ : Point).x ∧
       (-1:ℚ) ≤ (⟨0,1⟩ : Point).y ∧ (⟨0,1⟩ : Point).x ≤ ((⟨1/2, 3/2⟩ : Point)).x ∧
       (⟨0,1⟩ : Point).y ≤ ((⟨1/2, 3/2⟩ : Point)).y) :=
  c2_box_query_exact.2 tcex
    (by norm_num [tcex, route_inv, opt_route, all_points, opt_all_points,
      QuadTree.center, QuadTree.width])
    ⟨1/2, 3/2⟩
    (by norm_num [tcex, avoids_centers, opt_avoids]) ⟨-1,-1⟩ ⟨0,1⟩

/-- C3: `near_points` is monotone in the radius — for fixed tree and
centroids and radii 0 ≤ r1 < r2, every point found at r1 is found at
r2. -/
theorem c3_near_points_monotone (t : QuadTree) (cs : List Point) (r1 r2 : ℚ)
    (h0 : 0 ≤ r1) (h12 : r1 < r2) :
    ∀ p, p ∈ near_points t cs r1 → p ∈ near_points t cs r2 := by
  intro p hp
  rw [mem_near_points] at hp ⊢
  obtain ⟨c, hc, hp⟩ := hp
  exact ⟨c, hc, points_in_radius_mono t c r1 r2 p h0 (le_of_lt h12) hp⟩

/-- C3 witness instance: on `treeZ`, the origin found within radius 1 of
the origin centroid is also found within radius 2. -/
theorem c3_witness : (⟨0,0⟩ : Point) ∈ near_points treeZ [⟨0,0⟩] 2 :=
  c3_near_points_monotone treeZ [⟨0,0⟩] 1 2 (by norm_num) (by norm_num) ⟨0,0⟩
    (by norm_num [near_points, points_in_radius, points_in_box, opt_points_in_box,
      set_add, treeZ, QuadTree.center, QuadTree.width, List.filter])

/-- C4: on a well-formed tree satisfying the containment and routing
invariants, inserting a point inside the node's region never trips the
containment assertion, and the containment invariant (with the others)
holds at every node of the result; moreover a whole sequence of
`add_point` calls from a fresh root, each argument inside the root's
region, builds a tree satisfying the containment invariant at every
node. -/
theorem c4_add_point_invariant :
    (∀ (t : QuadTree) (p : Point),
      wf_tree t → box_inv t → route_inv t → _is_in_box t p →
      ∃ t', add_point t p = .ok t' ∧ wf_tree t' ∧ box_inv t' ∧ route_inv t' ∧
        List.Perm (all_points t') (p :: all_points t)) ∧
    (∀ (c : Point) (w : ℚ) (ps : List Point),
      (∀ q ∈ ps, _is_in_box (.mk c w [] none none none none) q) →
      ∃ t, add_all (.mk c w [] none none none none) ps = .ok t ∧ box_inv t ∧
        List.Perm (all_points t) ps) := by
  constructor
  · intro t p hwf hbox hroute hin
    obtain ⟨t', h1, _, _, h4, h5, h6, h7⟩ := add_point_spec t p hwf hbox hroute hin
    exact ⟨t', h1, h4, h5, h6, h7⟩
  · intro c w ps hins
    obtain ⟨t, h1, _, _, _, h5, _, h7⟩ :=
      add_all_spec ps (.mk c w [] none none none none)
        (wf_tree_leaf _ _ _) (box_inv_empty _ _) (route_inv_leaf _ _ _) hins
    refine ⟨t, h1, h5, ?_⟩
    have he : all_points (QuadTree.mk c w [] none none none none) = [] := by
      simp [all_points, opt_all_points]
    rw [he, List.append_nil] at h7
    exact h7

/-- C4 witness instance: inserting (0,1) into the empty root centered at
the origin with half-width 8 succeeds with all invariants. -/
theorem c4_witness :
    ∃ t', add_point (.mk ⟨0,0⟩ 8 [] none none none none) ⟨0,1⟩ = .ok t' ∧
      wf_tree t' ∧ box_inv t' ∧ route_inv t' ∧
      List.Perm (all_points t') (⟨0,1⟩ :: all_points (.mk ⟨0,0⟩ 8 [] none none none none)) :=
  c4_add_point_invariant.1 (.mk ⟨0,0⟩ 8 [] none none none none) ⟨0,1⟩
    (wf_tree_leaf _ _ _) (box_inv_empty _ _) (route_inv_leaf _ _ _)
    (by norm_num [_is_in_box, QuadTree.center, QuadTree.width])

/-- C5: on any non-empty input, `make_tree` constructs the root at the
bounding-box center with half-width `max(xmax−xmin, ymax−ymin)/2 + 0.001`,
inserts every input point (the stored collection is a permutation of the
input), and no containment assertion ever fires — the build returns
`.ok`. -/
theorem c5_make_tree_safe (p : Point) (ps : List Point) :
    ∃ t, make_tree (p :: ps) = .ok t ∧
      t.center = ⟨(ps.foldl (fun m q => max m q.x) p.x + ps.foldl (fun m q => min m q.x) p.x)/2,
                  (ps.foldl (fun m q => max m q.y) p.y + ps.foldl (fun m q => min m q.y) p.y)/2⟩ ∧
      t.width = max (ps.foldl (fun m q => max m q.x) p.x - ps.foldl (fun m q => min m q.x) p.x)
                    (ps.foldl (fun m q => max m q.y) p.y - ps.foldl (fun m q => min m q.y) p.y)
                  / 2 + 1/1000 ∧
      box_inv t ∧
      List.Perm (all_points t) (p :: ps) := by
  obtain ⟨t, h1, h2, h3, _, h5, _, h7⟩ := make_tree_spec p ps
  exact ⟨t, h1, h2, h3, h5, h7⟩

/-- C6: whenever the count at the caller's initial radius already equals
the (positive) target, `newton_search` returns exactly that radius and
count; and on the spec's scenario-4 data (with the duplicate (0,0)),
`newton_search` with centroid (4,5), initial radius 5.5 and target 3
returns exactly (5.5, 3). -/
theorem c6_newton_initial_match (msqrt : ℚ → ℚ) (fuel : ℕ) (tree : QuadTree)
    (cs : List Point) (r : ℚ) (tc : ℤ) (h1 : 0 < tc)
    (h2 : ((near_points tree cs r).length : ℤ) = tc) :
    newton_search msqrt fuel tree cs r tc = .ok (r, .count tc) ∧
    make_tree pts7 = .ok tree7 ∧
    newton_search msqrt fuel tree7 [⟨4,5⟩] (11/2) 3 = .ok (11/2, .count 3) := by
  refine ⟨?_, make_tree_pts7, ?_⟩
  · rw [newton_search]
    rw [if_neg (not_le.mpr h1)]
    simp only []
    rw [if_pos h2, h2]
  · rw [newton_search]
    rw [if_neg (by norm_num)]
    simp only [near_points_tree7]
    norm_num

/-- C6 witness instance: the scenario itself, with the rational
square-root stand-in and zero loop fuel (the loop is never entered). -/
theorem c6_witness :
    newton_search rat_sqrt 0 tree7 [⟨4,5⟩] (11/2) 3 = .ok (11/2, .count 3) ∧
    make_tree pts7 = .ok tree7 :=
  ⟨(c6_newton_initial_match rat_sqrt 0 tree7 [⟨4,5⟩] (11/2) 3 (by norm_num)
      (by rw [near_points_tree7]; norm_num)).1,
   (c6_newton_initial_match rat_sqrt 0 tree7 [⟨4,5⟩] (11/2) 3 (by norm_num)
      (by rw [near_points_tree7]; norm_num)).2.1⟩

/-- C7 (counterexample): the bracket state lowRadius=1, lowCount=2,
highRadius=3, highCount=6 with target 4 satisfies every invariant the
claim assumes (0 ≤ low < high, width > 1e-6, lowCount < target <
highCount), yet `_quadratic_interpolate` produces no trial at all: the
fitted quadratic coefficient is zero and the final division raises
`ZeroDivisionError` (in the real-number idealization the expression
collapses to 0, which is not strictly inside the bracket). -/
theorem c7_counterexample :
    ((0:ℚ) ≤ 1 ∧ (1:ℚ) < 3 ∧ (3:ℚ) - 1 > 1/1000000 ∧ (2:ℤ) < 4 ∧ (4:ℤ) < 6) ∧
    _quadratic_interpolate rat_sqrt 1 2 3 6 4 = .error "ZeroDivisionError" ∧
    ¬ (1 < quad_interp_real 1 2 3 6 4 ∧ quad_interp_real 1 2 3 6 4 < 3) := by
  refine ⟨by norm_num,
    quadratic_interpolate_zero_div rat_sqrt 1 2 3 6 4 (by norm_num) (by norm_num)
      (by norm_num) (by norm_num) (by norm_num), ?_⟩
  have h0 : quad_interp_real 1 2 3 6 4 = 0 := by
    rw [quad_interp_real, if_neg (by norm_num)]
    norm_num
  rw [h0]
  norm_num

/-- C7 (amended): in the real-number idealization of the interpolation
formula, under the loop's bracketing invariants (0 ≤ lowRadius <
highRadius and lowCount < target < highCount with lowCount ≥ 0), and
provided additionally that the fitted quadratic coefficient does not
vanish (x1·y2 ≠ x2·y1) — or the lowRadius is 0, where the power-law
branch applies — the trial radius lies strictly between lowRadius and
highRadius, so the two assertions guarding the trial hold. -/
theorem c7_trial_strictly_inside (x1 y1 x2 y2 T : ℝ)
    (hx1 : 0 ≤ x1) (hx12 : x1 < x2) (hy1 : 0 ≤ y1) (hyT : y1 < T) (hTy : T < y2)
    (ha : x1 = 0 ∨ x1 * y2 ≠ x2 * y1) :
    x1 < quad_interp_real x1 y1 x2 y2 T ∧ quad_interp_real x1 y1 x2 y2 T < x2 :=
  quad_interp_real_between x1 y1 x2 y2 T hx1 hx12 hy1 hyT hTy ha

/-- C7 witness instance: with bracket (1, 1)–(3, 9) and target 4 the trial
lies strictly inside (1, 3). -/
theorem c7_witness :
    1 < quad_interp_real 1 1 3 9 4 ∧ quad_interp_real 1 1 3 9 4 < 3 :=
  c7_trial_strictly_inside 1 1 3 9 4 (by norm_num) (by norm_num) (by norm_num)
    (by norm_num) (by norm_num) (Or.inr (by norm_num))

/-- C8 (counterexample): a complete run in which `newton_search` raises a
hard failure for an unreachable exact target.  On the tree built from
{(0,0), (3,4), (−3,−4)} with centroid (0,0), no radius yields exactly 2
points (the two outer points sit at the same distance 5), and with
initial radius `maxRadius/3` the first bracket satisfies
lowRadius·highCount = highRadius·lowCount, so the interpolation's
quadratic coefficient is zero and `ZeroDivisionError` propagates out of
`newton_search` — it does not return a best-effort pair. -/
theorem c8_counterexample :
    make_tree ptsZ = .ok treeZ ∧
    newton_search rat_sqrt 1 treeZ [⟨0,0⟩] (4001/3000) 2 = .error "ZeroDivisionError" :=
  ⟨make_tree_ptsZ, newton_search_hard_failure⟩

/-- C8 (amended): when the loop's entry test fails (bracket width at most
1e-6, with fuel standing in for the float-discreteness termination bound
of the Python loop) the solver does exit non-fatally with the best-effort
answer `(highRadius, highCount)`; but `newton_search` is NOT free of hard
failures for unreachable targets (see the counterexample), and its
termination argument is a floating-point discreteness property outside
this exact-arithmetic model. -/
theorem c8_best_effort_exit (msqrt : ℚ → ℚ) (tree : QuadTree) (cs : List Point)
    (tc : ℤ) (fuel : ℕ) (lr : ℚ) (lc : ℤ) (hr : ℚ) (hc : ℤ)
    (hout : ¬ hr - lr > 1/1000000) :
    newton_loop msqrt tree cs tc (fuel + 1) lr lc hr hc = .ok (hr, .count hc) :=
  newton_loop_exit msqrt tree cs tc fuel lr lc hr hc hout

/-- C8 witness instance: with an exhausted bracket the loop returns the
high end as the best-effort answer. -/
theorem c8_witness :
    newton_loop rat_sqrt treeZ [⟨0,0⟩] 5 1 0 0 (1/2000000) 7 = .ok (1/2000000, .count 7) :=
  c8_best_effort_exit rat_sqrt treeZ [⟨0,0⟩] 5 0 0 0 (1/2000000) 7 (by norm_num)

/-- C9: `newton_search` returns `(radius, count)` pairs — every successful
non-degenerate return carries an integer count as its second component —
while the degenerate request `target_count ≤ 0` returns immediately with
radius 0 and, as second component, the `near_points(tree, centroids, 0)`
set itself (Python returns the set object there, not its size). -/
theorem c9_return_shape (msqrt : ℚ → ℚ) (fuel : ℕ) (tree : QuadTree)
    (cs : List Point) (r : ℚ) (tc : ℤ) :
    (tc ≤ 0 → newton_search msqrt fuel tree cs r tc = .ok (0, .pts (near_points tree cs 0))) ∧
    (0 < tc → ∀ (rr : ℚ) (res : NewtonRet),
      newton_search msqrt fuel tree cs r tc = .ok (rr, res) → ∃ n, res = .count n) := by
  constructor
  · intro ht
    rw [newton_search, if_pos ht]
  · intro ht rr res h
    rw [newton_search] at h
    rw [if_neg (not_le.mpr ht)] at h
    simp only [] at h
    by_cases h2 : ((near_points tree cs r).length : ℤ) = tc
    · rw [if_pos h2] at h
      simp only [Except.ok.injEq, Prod.mk.injEq] at h
      exact ⟨_, h.2.symm⟩
    · rw [if_neg h2] at h
      by_cases h3 : ((py_set (all_points tree)).length : ℤ) ≤ tc
      · rw [if_pos h3] at h
        simp only [Except.ok.injEq, Prod.mk.injEq] at h
        exact ⟨_, h.2.symm⟩
      · rw [if_neg h3] at h
        by_cases h4 : ((near_points tree cs r).length : ℤ) > tc
        · rw [if_pos h4] at h
          exact newton_loop_count msqrt tree cs tc fuel _ _ _ _ rr res h
        · rw [if_neg h4] at h
          exact newton_loop_count msqrt tree cs tc fuel _ _ _ _ rr res h

/-- C9 witness instance: the degenerate request on `treeZ` with no
centroids and target 0. -/
theorem c9_witness :
    newton_search rat_sqrt 1 treeZ [] 0 0 = .ok (0, .pts (near_points treeZ [] 0)) :=
  (c9_return_shape rat_sqrt 1 treeZ [] 0 0).1 (by norm_num)

/-- C10: whenever the asserted preconditions hold with x1·y2 = x2·y1 (and
x1 > 0), the fitted quadratic coefficient is zero and
`_quadratic_interpolate` raises `ZeroDivisionError` in its final
expression instead of returning a value. -/
theorem c10_division_by_zero (msqrt : ℚ → ℚ) (x1 y1 x2 y2 T : ℚ)
    (h1 : 0 < x1) (h2 : x1 < x2) (h3 : 0 ≤ y1) (h4 : y1 ≤ y2)
    (hcol : x1 * y2 = x2 * y1) :
    _quadratic_interpolate msqrt x1 y1 x2 y2 T = .error "ZeroDivisionError" :=
  quadratic_interpolate_zero_div msqrt x1 y1 x2 y2 T h1 h2 h3 h4 hcol

/-- C10 witness instance: the inputs x1=1, y1=2, x2=3, y2=6 satisfy the
asserted preconditions yet raise `ZeroDivisionError`. -/
theorem c10_witness :
    ((0:ℚ) < 1 ∧ (1:ℚ) < 3 ∧ (0:ℚ) ≤ 2 ∧ (2:ℚ) ≤ 6 ∧ (1 * 6 : ℚ) = 3 * 2) ∧
    _quadratic_interpolate rat_sqrt 1 2 3 6 4 = .error "ZeroDivisionError" :=
  ⟨by norm_num, c10_division_by_zero rat_sqrt 1 2 3 6 4 (by norm_num) (by norm_num)
    (by norm_num) (by norm_num) (by norm_num)⟩
